import Mathlib

/-!
Verification of the flowsint Flow Execution Engine against its
natural-language specification.

The development shallowly embeds the Python sources:
  * `flowsint-types/src/flowsint_types/__init__.py` (node-data cleaning),
  * `flowsint-api/app/api/routes/flows.py` (branch compiler),
  * `flowsint-core/src/flowsint_core/core/orchestrator.py` (orchestrator),
  * `flowsint-core/src/flowsint_core/tasks/enricher.py` (task runtime),
  * `flowsint-enrichers/src/flowsint_enrichers/registry.py` (registry).

Python runtime values (JSON-like data) are modelled by the inductive type
`Value`; Python dicts are modelled as insertion-ordered association lists,
with assignment replacing the first binding of an existing key and
appending otherwise, exactly matching CPython dict semantics.  Wall-clock
fields (`timestamp`, `execution_time_ms`) are omitted from the model: they
are real-time observables with no bearing on any claim.  Python's builtin
`str` (used only to build cache keys) is a parameter of the orchestrator
model, since it is a primitive of the source language rather than code of
the repository; every claim holds for an arbitrary choice of it.
-/

/-- JSON-like Python runtime values, as passed around by the engine.
Float literals of the source are represented as rationals. -/
inductive Value where
  | null : Value
  | bool (b : Bool) : Value
  | int (n : Int) : Value
  | rat (q : ℚ) : Value
  | str (s : String) : Value
  | list (xs : List Value) : Value
  | obj (fields : List (String × Value)) : Value

mutual

/-- Structural equality on `Value`, mirroring Python `==` on JSON data. -/
def Value.beq : Value → Value → Bool
  | .null, .null => true
  | .bool a, .bool b => a == b
  | .int a, .int b => a == b
  | .rat a, .rat b => a == b
  | .str a, .str b => a == b
  | .list xs, .list ys => Value.beqList xs ys
  | .obj xs, .obj ys => Value.beqObj xs ys
  | _, _ => false

/-- Elementwise equality of Python lists. -/
def Value.beqList : List Value → List Value → Bool
  | [], [] => true
  | a :: as', b :: bs => Value.beq a b && Value.beqList as' bs
  | _, _ => false

/-- Entrywise equality of Python dict item lists. -/
def Value.beqObj : List (String × Value) → List (String × Value) → Bool
  | [], [] => true
  | (k, v) :: as', (k', v') :: bs => k == k' && Value.beq v v' && Value.beqObj as' bs
  | _, _ => false

end

/-- Python truthiness (`bool(v)`) on the modelled values. -/
def py_truthy : Value → Bool
  | .null => false
  | .bool b => b
  | .int n => n != 0
  | .rat q => q != 0
  | .str s => s != ""
  | .list xs => !xs.isEmpty
  | .obj fs => !fs.isEmpty

/-- `isinstance(v, (dict, list))`, the output-format check of the
orchestrator. -/
def is_dict_or_list : Value → Bool
  | .list _ => true
  | .obj _ => true
  | _ => false

/-- Truthiness of an optional string (Python `None` and `""` are falsy). -/
def opt_str_truthy : Option String → Bool
  | none => false
  | some s => s != ""

/-- `d.get(k)` on a Python dict modelled as an association list. -/
def dict_get (d : List (String × Value)) (k : String) : Option Value :=
  (d.find? (fun kv => kv.1 == k)).map (·.2)

/-- `d[k] = v` on a Python dict: replace the first binding of `k` if
present, otherwise append the new binding (CPython insertion order). -/
def dict_set (d : List (String × Value)) (k : String) (v : Value) :
    List (String × Value) :=
  match d with
  | [] => [(k, v)]
  | (k', v') :: rest =>
      if k' == k then (k', v) :: rest else (k', v') :: dict_set rest k v

/-- `d.get(k)` on a dict whose keys are arbitrary Python values
(the orchestrator's `results_mapping`). -/
def vdict_get (d : List (Value × Value)) (k : Value) : Option Value :=
  (d.find? (fun kv => Value.beq kv.1 k)).map (·.2)

/-- `d[k] = v` on a dict with arbitrary value keys. -/
def vdict_set (d : List (Value × Value)) (k : Value) (v : Value) :
    List (Value × Value) :=
  match d with
  | [] => [(k, v)]
  | (k', v') :: rest =>
      if Value.beq k' k then (k', v) :: rest else (k', v') :: vdict_set rest k v

/-! ## Node Loader: `clean_neo4j_node_data`
(`flowsint-types/src/flowsint_types/__init__.py`) -/

/-- The Neo4j storage/display keys stripped by the cleaning step. -/
def neo4j_meta_keys : List String :=
  ["sketch_id", "created_at", "type", "x", "y", "caption", "color"]

/-- `v in ("", None, [], {})`: equality of `v` with one of the four empty
values dropped by the cleaning step. -/
def is_empty_py : Value → Bool
  | .str s => s == ""
  | .null => true
  | .list xs => xs.isEmpty
  | .obj fs => fs.isEmpty
  | _ => false

/-- `clean_neo4j_node_data` from `flowsint_types/__init__.py`: iterate the
raw record, skipping Neo4j-specific keys and empty values, and keep every
remaining pair. -/
def clean_neo4j_node_data : List (String × Value) → List (String × Value)
  | [] => []
  | (k, v) :: rest =>
      if k ∈ neo4j_meta_keys then clean_neo4j_node_data rest
      else if is_empty_py v then clean_neo4j_node_data rest
      else (k, v) :: clean_neo4j_node_data rest

/-- C7: the cleaned record consists of exactly the pairs of the input whose
key is none of the seven metadata keys and whose value is none of the four
empty values, each preserved unchanged (and in input order, being a
sublist of the input). -/
theorem clean_neo4j_node_data_spec (node_data : List (String × Value)) :
    (∀ kv : String × Value,
        kv ∈ clean_neo4j_node_data node_data ↔
          (kv ∈ node_data ∧ kv.1 ∉ neo4j_meta_keys ∧
            kv.2 ≠ .str "" ∧ kv.2 ≠ .null ∧ kv.2 ≠ .list [] ∧ kv.2 ≠ .obj [])) ∧
    List.Sublist (clean_neo4j_node_data node_data) node_data := by
  have hempty : ∀ v : Value, is_empty_py v = false ↔
      (v ≠ .str "" ∧ v ≠ .null ∧ v ≠ .list [] ∧ v ≠ .obj []) := by
    intro v
    cases v with
    | str s => simp [is_empty_py]
    | list xs => cases xs <;> simp [is_empty_py]
    | obj fs => cases fs <;> simp [is_empty_py]
    | _ => simp [is_empty_py]
  have hfilter : ∀ d : List (String × Value), clean_neo4j_node_data d =
      d.filter (fun kv => !(decide (kv.1 ∈ neo4j_meta_keys)) && !(is_empty_py kv.2)) := by
    intro d
    induction d with
    | nil => rfl
    | cons hd tl ih =>
        obtain ⟨k, v⟩ := hd
        by_cases hk : k ∈ neo4j_meta_keys
        · rw [clean_neo4j_node_data, if_pos hk]
          simp [List.filter_cons, hk, ih]
        · by_cases hv : is_empty_py v
          · rw [clean_neo4j_node_data, if_neg hk, if_pos hv]
            simp [List.filter_cons, hk, hv, ih]
          · rw [clean_neo4j_node_data, if_neg hk, if_neg hv]
            simp [List.filter_cons, hk, hv, ih]
  constructor
  · intro kv
    rw [hfilter, List.mem_filter]
    have : (!(decide (kv.1 ∈ neo4j_meta_keys)) && !(is_empty_py kv.2)) = true ↔
        (kv.1 ∉ neo4j_meta_keys ∧
          kv.2 ≠ .str "" ∧ kv.2 ≠ .null ∧ kv.2 ≠ .list [] ∧ kv.2 ≠ .obj []) := by
      rw [Bool.and_eq_true, Bool.not_eq_true', Bool.not_eq_true',
        decide_eq_false_iff_not, hempty]
    rw [this]
  · rw [hfilter]
    exact List.filter_sublist _

/-! ## Branch compiler data model
Record shapes of `flowsint_core.core.types` (`Node`, `Edge`, `FlowStep`,
`FlowBranch`), reconstructed from their uses in
`flowsint-api/app/api/routes/flows.py` and §3 of the specification. -/

/-- One entry of `data["outputs"]["properties"]`; only `get("name", "output")`
is ever read from it. -/
structure OutputProp where
  name : Option String

/-- The `data` payload of a flow node.  `type`, `class_name` and `params` are
read with `dict.get` (defaults folded in for the latter two);
`outputs_properties` models `data["outputs"].get("properties", [])`. -/
structure NodeData where
  type : Option String
  outputs_properties : List OutputProp
  params : List (String × Value)
  class_name : String

/-- A flow-graph node. -/
structure Node where
  id : String
  data : NodeData

/-- A flow-graph edge with optional handle labels. -/
structure Edge where
  source : String
  sourceHandle : Option String
  target : String
  targetHandle : Option String

/-- One compiled step of a branch. -/
structure FlowStep where
  nodeId : String
  params : List (String × Value)
  inputs : List (String × Value)
  outputs : List (String × Value)
  type : String
  status : String
  branchId : String
  depth : Nat

/-- One compiled linear branch. -/
structure FlowBranch where
  id : String
  name : String
  steps : List FlowStep

/-! ## Branch compiler (`compute_flow_branches` and helpers, `flows.py`)

Python's builtin `str` (used by the f-string in the `SubdomainEnricher`
placeholder) is passed in as the parameter `py_str`; all theorems hold for
an arbitrary choice of it. -/

/-- Python `s.lower()` at the character-list level. -/
def py_lower (s : String) : String :=
  String.mk (s.toList.map Char.toLower)

/-- Python substring containment `needle in haystack`. -/
def py_in_str (needle : List Char) : List Char → Bool
  | [] => needle.isEmpty
  | c :: rest => needle.isPrefixOf (c :: rest) || py_in_str needle rest

/-- Truthiness of the optional `parent_outputs` dict (`None` and `{}` are
falsy). -/
def opt_dict_truthy : Option (List (String × Value)) → Bool
  | none => false
  | some fs => !fs.isEmpty

/-- `process_node_data` from `flows.py`: placeholder outputs of an enricher
node, dispatched on `class_name`, one entry per declared output property. -/
def process_node_data (py_str : Value → String) (node : Node)
    (inputs : List (String × Value)) : List (String × Value) :=
  node.data.outputs_properties.foldl (fun outputs output =>
    let output_name := output.name.getD "output"
    let class_name := node.data.class_name
    let v : Value :=
      if class_name = "ReverseResolveEnricher" ∨ class_name = "ResolveEnricher" then
        if py_in_str "ip".toList (py_lower output_name).toList then
          .str "192.168.1.1"
        else .str "example.com"
      else if class_name = "SubdomainEnricher" then
        .str ("sub." ++ py_str ((dict_get inputs "input").getD (.str "example.com")))
      else if class_name = "WhoisEnricher" then
        .obj [("domain", (dict_get inputs "input").getD (.str "example.com")),
              ("registrar", .str "Example Registrar"),
              ("creation_date", .str "2020-01-01")]
      else if class_name = "IpToInfosEnricher" then
        .obj [("country", .str "France"), ("city", .str "Paris"),
              ("coordinates", .obj [("lat", .rat 48.8566), ("lon", .rat 2.3522)])]
      else if class_name = "MaigretEnricher" then
        .obj [("username", (dict_get inputs "input").getD (.str "user123")),
              ("platforms", .list [.str "twitter", .str "github", .str "linkedin"])]
      else if class_name = "HoleheEnricher" then
        .obj [("email", (dict_get inputs "input").getD (.str "user@example.com")),
              ("exists", .bool true),
              ("platforms", .list [.str "gmail", .str "github"])]
      else if class_name = "SireneEnricher" then
        .obj [("name", (dict_get inputs "input").getD (.str "Example Corp")),
              ("siret", .str "12345678901234"),
              ("address", .str "1 Example Street")]
      else
        match dict_get inputs "input" with
        | some w => if py_truthy w then w else .str ("flowed_" ++ output_name)
        | none => .str ("flowed_" ++ output_name)
    dict_set outputs output_name v) []

/-- `calculate_path_length` from `flows.py`: shortest simple-path length
from a node to any leaf (node without outgoing edges), `⊤` standing for
Python's `float("inf")`.  The `fuel` argument makes the recursion
structural; `calculate_path_length_fuel_stable` below shows any fuel past
the recursion depth bound computes the same value, so the fuelled function
is exactly the Python one. -/
def calculate_path_length (edges : List Edge) :
    Nat → String → List String → WithTop ℕ
  | 0, _, _ => ⊤
  | fuel + 1, start_node, visited =>
      if start_node ∈ visited then ⊤
      else if (edges.filter (fun e => e.source == start_node)).isEmpty then 1
      else
        1 + (edges.filter (fun e => e.source == start_node)).foldl
          (fun min_length e =>
            min min_length
              (calculate_path_length edges fuel e.target (start_node :: visited)))
          ⊤

/-- Fuel used for `calculate_path_length`: one more than the largest
possible recursion depth. -/
def cpl_fuel (edges : List Edge) : Nat := edges.length + 2

/-- The sort key of `get_outgoing_edges`: the shortest path length from the
edge's target to any leaf. -/
def path_len_key (edges : List Edge) (e : Edge) : WithTop ℕ :=
  calculate_path_length edges (cpl_fuel edges) e.target []

/-- The comparison used to sort outgoing edges (ascending by key). -/
def edge_key_le (edges : List Edge) (e₁ e₂ : Edge) : Prop :=
  path_len_key edges e₁ ≤ path_len_key edges e₂

instance edge_key_le_dec (edges : List Edge) : DecidableRel (edge_key_le edges) :=
  fun e₁ e₂ => inferInstanceAs (Decidable (path_len_key edges e₁ ≤ path_len_key edges e₂))

/-- `get_outgoing_edges` from `flows.py`: the edges leaving `node_id`,
stably sorted ascending by `path_len_key` (Python's `sorted` is a stable
sort, modelled by `List.insertionSort`, which is also stable). -/
def get_outgoing_edges (edges : List Edge) (node_id : String) : List Edge :=
  List.insertionSort (edge_key_le edges)
    (edges.filter (fun e => e.source == node_id))

/-- `create_step` from `flows.py`. -/
def create_step (node_id branch_id : String) (depth : Nat)
    (input_data : List (String × Value)) (is_input_node : Bool)
    (outputs : List (String × Value)) (node_params : List (String × Value)) :
    FlowStep :=
  { nodeId := node_id
    params := node_params
    inputs := if is_input_node then [] else input_data
    outputs := outputs
    type := if is_input_node then "type" else "enricher"
    status := "pending"
    branchId := branch_id
    depth := depth }

/-- The state mutated across the whole compilation: the emitted branches,
the fork counter (`nonlocal branch_counter`) and the cross-branch
`enricher_outputs` cache. -/
structure CompileState where
  branches : List FlowBranch
  branch_counter : Nat
  enricher_outputs : List (String × List (String × Value))

/-- `node_map` lookup.  The Python dict comprehension
`{node.id: node for node in nodes}` lets a later duplicate id win, hence
the search over the reversed list. -/
def node_map_get (nodes : List Node) (node_id : String) : Option Node :=
  nodes.reverse.find? (fun n => n.id == node_id)

/-- The `next_input` record built before following an edge in
`explore_branch`: the source handle (or the first output key when the
handle is falsy) selects a value from `current_outputs`, falling back to
`parent_outputs`; the target handle (default `"input"`) names the single
entry. -/
def edge_next_input (current_outputs : List (String × Value))
    (parent_outputs : Option (List (String × Value))) (e : Edge) :
    List (String × Value) :=
  let output_key : Option String :=
    if !(opt_str_truthy e.sourceHandle) && !current_outputs.isEmpty then
      current_outputs.head?.map Prod.fst
    else e.sourceHandle
  let output_value₀ : Option Value :=
    if opt_str_truthy output_key then
      dict_get current_outputs (output_key.getD "")
    else none
  let output_value : Option Value :=
    if output_value₀.isNone && opt_dict_truthy parent_outputs then
      if opt_str_truthy output_key then
        dict_get (parent_outputs.getD []) (output_key.getD "")
      else none
    else output_value₀
  [((if opt_str_truthy e.targetHandle then e.targetHandle.getD "" else "input"),
    output_value.getD .null)]

/-- The edge loop of `explore_branch` (`for i, edge in enumerate(out_edges)`).
`rec` is the recursive call into `explore_branch` at the next fuel level;
`path'`, `bv'`, `steps'` and `current_outputs` are the loop-invariant
locals of the enclosing `explore_branch` frame (the Python code restores
`path` and `steps` on return from every recursive call, so passing them by
value is exact).  The index-0 edge continues the current branch; every
later index forks, bumping the global `branch_counter`. -/
def explore_branch_edges
    (rec : String → String → String → Nat → List (String × Value) →
      List String → List String → List FlowStep →
      Option (List (String × Value)) → CompileState → CompileState)
    (branch_id branch_name : String) (depth : Nat)
    (current_outputs : List (String × Value))
    (parent_outputs : Option (List (String × Value)))
    (path' bv' : List String) (steps' : List FlowStep) :
    List Edge → Nat → CompileState → CompileState
  | [], _, st => st
  | e :: rest, i, st =>
      if e.target ∈ path' then
        explore_branch_edges rec branch_id branch_name depth current_outputs
          parent_outputs path' bv' steps' rest (i + 1) st
      else
        let next_input := edge_next_input current_outputs parent_outputs e
        if i == 0 then
          let st' := rec e.target branch_id branch_name (depth + 1) next_input
            path' bv' steps' (some current_outputs) st
          explore_branch_edges rec branch_id branch_name depth current_outputs
            parent_outputs path' bv' steps' rest (i + 1) st'
        else
          let ctr := st.branch_counter + 1
          let st' := rec e.target (branch_id ++ "-" ++ toString ctr)
            (branch_name ++ " (Branch " ++ toString ctr ++ ")") (depth + 1)
            next_input path' bv' steps' (some current_outputs)
            { st with branch_counter := ctr }
          explore_branch_edges rec branch_id branch_name depth current_outputs
            parent_outputs path' bv' steps' rest (i + 1) st'

/-- The "Process node outputs" block of `explore_branch`: a type node
yields its first declared output field bound to the seed value; an
enricher node reuses the cross-branch `enricher_outputs` cache or runs the
placeholder simulator `process_node_data` and stores the result. -/
def node_outputs (initial_value : Value) (py_str : Value → String)
    (node : Node) (current : String) (input_data : List (String × Value))
    (st : CompileState) : List (String × Value) × CompileState :=
  if node.data.type == some "type" then
    let first_output_name :=
      match node.data.outputs_properties with
      | [] => "output"
      | p :: _ => p.name.getD "output"
    ([(first_output_name, initial_value)], st)
  else
    match (st.enricher_outputs.find? (fun kv => kv.1 == current)).map (·.2) with
    | some outs => (outs, st)
    | none =>
        let outs := process_node_data py_str node input_data
        (outs,
          { st with enricher_outputs := st.enricher_outputs ++ [(current, outs)] })

/-- `node_outputs` never touches the emitted branches nor the fork
counter. -/
theorem node_outputs_branches (initial_value : Value) (py_str : Value → String)
    (node : Node) (current : String) (input_data : List (String × Value))
    (st : CompileState) :
    (node_outputs initial_value py_str node current input_data st).2.branches =
        st.branches ∧
      (node_outputs initial_value py_str node current input_data st).2.branch_counter =
        st.branch_counter := by
  unfold node_outputs
  by_cases h : (node.data.type == some "type") = true
  · simp [h]
  · simp only [h, if_false]
    cases (st.enricher_outputs.find? (fun kv => kv.1 == current)).map (·.2) <;> simp

/-- `explore_branch` from `flows.py`, with a structural fuel argument.
`explore_branch_fuel_stable` below shows that any fuel beyond the number of
distinct node ids outside `path` computes the same state, so the fuelled
function coincides with the Python recursion (which terminates for the
same reason). -/
def explore_branch (nodes : List Node) (edges : List Edge)
    (initial_value : Value) (py_str : Value → String) :
    Nat → String → String → String → Nat → List (String × Value) →
      List String → List String → List FlowStep →
      Option (List (String × Value)) → CompileState → CompileState
  | 0, _, _, _, _, _, _, _, _, _, st => st
  | fuel + 1, current, branch_id, branch_name, depth, input_data, path,
      branch_visited, steps, parent_outputs, st =>
      if current ∈ path then st
      else
        match node_map_get nodes current with
        | none => st
        | some node =>
            let is_input_node := node.data.type == some "type"
            let co_st := node_outputs initial_value py_str node current input_data st
            let current_outputs := co_st.1
            let st₁ := co_st.2
            let node_params := node.data.params
            let current_step := create_step current branch_id depth input_data
              is_input_node current_outputs node_params
            let steps' := steps ++ [current_step]
            let path' := path ++ [current]
            let bv' := branch_visited ++ [current]
            let out_edges := get_outgoing_edges edges current
            if out_edges.isEmpty then
              { st₁ with branches :=
                  st₁.branches ++ [⟨branch_id, branch_name, steps'⟩] }
            else
              explore_branch_edges
                (explore_branch nodes edges initial_value py_str fuel)
                branch_id branch_name depth current_outputs parent_outputs
                path' bv' steps' out_edges 0 st₁

/-- Fuel used for `explore_branch`: one more than the largest possible
recursion depth. -/
def explore_fuel (nodes : List Node) : Nat := nodes.length + 1

/-- The loop over the seed (type) nodes in `compute_flow_branches`:
`for index, input_node in enumerate(input_nodes)`.  The `fuel` parameter
is forwarded to `explore_branch`; `compute_flow_branches` instantiates it
with `explore_fuel nodes`, which `explore_branch_fuel_stable` shows is
past the recursion depth. -/
def explore_seeds (nodes : List Node) (edges : List Edge)
    (initial_value : Value) (py_str : Value → String) (fuel : Nat)
    (many : Bool) : List Node → Nat → CompileState → CompileState
  | [], _, st => st
  | n :: rest, index, st =>
      let branch_id := "branch-" ++ toString index
      let branch_name :=
        if many then "Flow " ++ toString (index + 1) else "Main Flow"
      let st' := explore_branch nodes edges initial_value py_str
        fuel n.id branch_id branch_name 0 [] [] [] [] none st
      explore_seeds nodes edges initial_value py_str fuel many rest (index + 1) st'

/-- The final `branches.sort(key=lambda branch: len(branch.steps))`. -/
def branch_len_le (b₁ b₂ : FlowBranch) : Prop :=
  b₁.steps.length ≤ b₂.steps.length

instance branch_len_le_dec : DecidableRel branch_len_le :=
  fun b₁ b₂ => inferInstanceAs (Decidable (b₁.steps.length ≤ b₂.steps.length))

/-- The synthetic single-step error branch returned when the flow has no
type node. -/
def error_branch : FlowBranch :=
  ⟨"error", "Error",
    [{ nodeId := "error", params := [], inputs := [], outputs := [],
       type := "error", status := "error", branchId := "error", depth := 0 }]⟩

/-- `compute_flow_branches` from `flows.py`, generic in the exploration
fuel. -/
def compute_flow_branches_fueled (py_str : Value → String)
    (initial_value : Value) (nodes : List Node) (edges : List Edge)
    (fuel : Nat) : List FlowBranch :=
  let input_nodes := nodes.filter (fun n => n.data.type == some "type")
  if input_nodes.isEmpty then [error_branch]
  else
    let st := explore_seeds nodes edges initial_value py_str
      fuel (decide (1 < input_nodes.length)) input_nodes 0 ⟨[], 0, []⟩
    List.insertionSort branch_len_le st.branches

/-- `compute_flow_branches` from `flows.py`. -/
def compute_flow_branches (py_str : Value → String) (initial_value : Value)
    (nodes : List Node) (edges : List Edge) : List FlowBranch :=
  compute_flow_branches_fueled py_str initial_value nodes edges
    (explore_fuel nodes)

/-! ## Fuel adequacy for the compiler recursions
The Python recursions terminate because each recursive call strictly
shrinks the set of unvisited nodes; the lemmas below express exactly that:
past the corresponding bound, the fuelled Lean functions no longer depend
on the fuel. -/

/-- Recursion measure of `calculate_path_length`: candidate start nodes not
yet visited. -/
def cpl_unvisited (edges : List Edge) (start_node : String)
    (visited : List String) : Nat :=
  ((insert start_node (edges.map Edge.target).toFinset).filter
    (fun x => x ∉ visited)).card

theorem cpl_unvisited_lt {edges : List Edge} {e : Edge} (he : e ∈ edges)
    {start_node : String} {visited : List String}
    (hnv : start_node ∉ visited) :
    cpl_unvisited edges e.target (start_node :: visited) <
      cpl_unvisited edges start_node visited := by
  unfold cpl_unvisited
  have htgt : e.target ∈ (edges.map Edge.target).toFinset := by
    rw [List.mem_toFinset, List.mem_map]
    exact ⟨e, he, rfl⟩
  rw [Finset.insert_eq_self.2 htgt]
  have hsub : ((edges.map Edge.target).toFinset.filter
      (fun x => x ∉ start_node :: visited)) ⊆
      ((insert start_node (edges.map Edge.target).toFinset).filter
        (fun x => x ∉ visited)) := by
    intro x hx
    obtain ⟨hx₁, hx₂⟩ := Finset.mem_filter.1 hx
    exact Finset.mem_filter.2 ⟨Finset.mem_insert_of_mem hx₁,
      fun hc => hx₂ (List.mem_cons_of_mem _ hc)⟩
  refine Finset.card_lt_card ((Finset.ssubset_iff_of_subset hsub).2 ?_)
  exact ⟨start_node, Finset.mem_filter.2 ⟨Finset.mem_insert_self _ _, hnv⟩,
    fun hc => (Finset.mem_filter.1 hc).2 (List.mem_cons_self _ _)⟩

theorem cpl_unvisited_le (edges : List Edge) (start_node : String)
    (visited : List String) :
    cpl_unvisited edges start_node visited ≤ edges.length + 1 := by
  unfold cpl_unvisited
  calc ((insert start_node (edges.map Edge.target).toFinset).filter
        (fun x => x ∉ visited)).card
      ≤ (insert start_node (edges.map Edge.target).toFinset).card :=
        Finset.card_filter_le _ _
    _ ≤ (edges.map Edge.target).toFinset.card + 1 := Finset.card_insert_le _ _
    _ ≤ (edges.map Edge.target).length + 1 :=
        Nat.add_le_add_right (List.toFinset_card_le _) 1
    _ = edges.length + 1 := by rw [List.length_map]

/-- Past the recursion-depth bound, `calculate_path_length` does not depend
on the fuel: the Python recursion terminates at every input. -/
theorem calculate_path_length_fuel_stable (edges : List Edge) :
    ∀ f₁ f₂ start_node visited,
      cpl_unvisited edges start_node visited < f₁ →
      cpl_unvisited edges start_node visited < f₂ →
      calculate_path_length edges f₁ start_node visited =
        calculate_path_length edges f₂ start_node visited := by
  intro f₁
  induction f₁ with
  | zero => intro f₂ s v h₁ h₂; omega
  | succ n ih =>
      intro f₂ s v h₁ h₂
      cases f₂ with
      | zero => omega
      | succ m =>
          simp only [calculate_path_length]
          by_cases hv : s ∈ v
          · simp [hv]
          · simp only [if_neg hv]
            by_cases hout : (edges.filter (fun e => e.source == s)).isEmpty
            · simp [hout]
            · simp only [hout, if_false]
              have hfold : (edges.filter (fun e => e.source == s)).foldl
                  (fun min_length e =>
                    min min_length (calculate_path_length edges n e.target (s :: v))) ⊤ =
                  (edges.filter (fun e => e.source == s)).foldl
                  (fun min_length e =>
                    min min_length (calculate_path_length edges m e.target (s :: v))) ⊤ := by
                apply List.foldl_ext
                intro acc e he
                have hee : e ∈ edges := List.mem_of_mem_filter he
                have hd := @cpl_unvisited_lt edges e hee s v hv
                rw [ih m e.target (s :: v) (by omega) (by omega)]
              rw [hfold]

/-- Recursion measure of `explore_branch`: graph-node ids outside the
current path. -/
def eb_unvisited (nodes : List Node) (path : List String) : Nat :=
  ((nodes.map Node.id).toFinset.filter (fun x => x ∉ path)).card

theorem node_map_get_mem {nodes : List Node} {current : String} {node : Node}
    (h : node_map_get nodes current = some node) :
    node ∈ nodes ∧ node.id = current := by
  unfold node_map_get at h
  have h₁ : node ∈ nodes.reverse := List.mem_of_find?_eq_some h
  have h₂ := List.find?_some h
  exact ⟨List.mem_reverse.1 h₁, by simpa using h₂⟩

theorem eb_unvisited_lt {nodes : List Node} {current : String}
    (h : current ∈ nodes.map Node.id) {path : List String}
    (hnp : current ∉ path) :
    eb_unvisited nodes (path ++ [current]) < eb_unvisited nodes path := by
  unfold eb_unvisited
  have hsub : ((nodes.map Node.id).toFinset.filter
      (fun x => x ∉ path ++ [current])) ⊆
      ((nodes.map Node.id).toFinset.filter (fun x => x ∉ path)) := by
    intro x hx
    obtain ⟨hx₁, hx₂⟩ := Finset.mem_filter.1 hx
    exact Finset.mem_filter.2 ⟨hx₁, fun hc => hx₂ (List.mem_append_left _ hc)⟩
  refine Finset.card_lt_card ((Finset.ssubset_iff_of_subset hsub).2 ?_)
  refine ⟨current, Finset.mem_filter.2 ⟨List.mem_toFinset.2 h, hnp⟩, fun hc => ?_⟩
  exact (Finset.mem_filter.1 hc).2
    (List.mem_append_right _ (List.mem_singleton.2 rfl))

theorem eb_unvisited_le (nodes : List Node) (path : List String) :
    eb_unvisited nodes path ≤ nodes.length := by
  unfold eb_unvisited
  calc ((nodes.map Node.id).toFinset.filter (fun x => x ∉ path)).card
      ≤ (nodes.map Node.id).toFinset.card := Finset.card_filter_le _ _
    _ ≤ (nodes.map Node.id).length := List.toFinset_card_le _
    _ = nodes.length := List.length_map _ _

/-- Congruence for the edge loop: two recursive continuations that agree at
the loop's (fixed) `path'`, `bv'`, `steps'` yield the same loop result. -/
theorem explore_branch_edges_congr
    {rec₁ rec₂ : String → String → String → Nat → List (String × Value) →
      List String → List String → List FlowStep →
      Option (List (String × Value)) → CompileState → CompileState}
    (branch_id branch_name : String) (depth : Nat)
    (current_outputs : List (String × Value))
    (parent_outputs : Option (List (String × Value)))
    (path' bv' : List String) (steps' : List FlowStep)
    (h : ∀ tgt bid' bname' d' inp pout' st,
      rec₁ tgt bid' bname' d' inp path' bv' steps' pout' st =
        rec₂ tgt bid' bname' d' inp path' bv' steps' pout' st) :
    ∀ es i st,
      explore_branch_edges rec₁ branch_id branch_name depth current_outputs
          parent_outputs path' bv' steps' es i st =
        explore_branch_edges rec₂ branch_id branch_name depth current_outputs
          parent_outputs path' bv' steps' es i st := by
  intro es
  induction es with
  | nil => intro i st; rfl
  | cons e rest ih =>
      intro i st
      simp only [explore_branch_edges]
      by_cases ht : e.target ∈ path'
      · simp only [if_pos ht, ih]
      · simp only [if_neg ht, h, ih]

/-- Past the recursion-depth bound, `explore_branch` does not depend on the
fuel: the Python depth-first exploration terminates at every input. -/
theorem explore_branch_fuel_stable (nodes : List Node) (edges : List Edge)
    (initial_value : Value) (py_str : Value → String) :
    ∀ f₁ f₂ current branch_id branch_name depth input_data path bv steps pout st,
      eb_unvisited nodes path < f₁ → eb_unvisited nodes path < f₂ →
      explore_branch nodes edges initial_value py_str f₁ current branch_id
          branch_name depth input_data path bv steps pout st =
        explore_branch nodes edges initial_value py_str f₂ current branch_id
          branch_name depth input_data path bv steps pout st := by
  intro f₁
  induction f₁ with
  | zero => intro f₂ current bid bname depth inp path bv steps pout st h₁ h₂; omega
  | succ n ih =>
      intro f₂ current bid bname depth inp path bv steps pout st h₁ h₂
      cases f₂ with
      | zero => omega
      | succ m =>
          simp only [explore_branch]
          by_cases hcp : current ∈ path
          · simp [hcp]
          · simp only [if_neg hcp]
            cases hfind : node_map_get nodes current with
            | none => rfl
            | some node =>
                have hmem : current ∈ nodes.map Node.id := by
                  obtain ⟨hn, hid⟩ := node_map_get_mem hfind
                  exact List.mem_map.2 ⟨node, hn, hid⟩
                have hlt := eb_unvisited_lt hmem hcp
                by_cases hout : (get_outgoing_edges edges current).isEmpty
                · simp [hout]
                · simp only [hout, if_false]
                  exact explore_branch_edges_congr _ _ _ _ _ _ _ _
                    (fun tgt bid' bname' d' inp' pout' st' =>
                      ih m tgt bid' bname' d' inp' (path ++ [current]) _ _ pout' st'
                        (by omega) (by omega)) _ _ _

/-! ## Invariants of the exploration -/

/-- A branch property is preserved through the edge loop whenever the
recursive continuation preserves it. -/
theorem explore_branch_edges_preserves (P : FlowBranch → Prop)
    {rec : String → String → String → Nat → List (String × Value) →
      List String → List String → List FlowStep →
      Option (List (String × Value)) → CompileState → CompileState}
    (branch_id branch_name : String) (depth : Nat)
    (current_outputs : List (String × Value))
    (parent_outputs : Option (List (String × Value)))
    (path' bv' : List String) (steps' : List FlowStep)
    (hrec : ∀ tgt bid' bname' d' inp pout' st,
      (∀ b ∈ st.branches, P b) →
      ∀ b ∈ (rec tgt bid' bname' d' inp path' bv' steps' pout' st).branches, P b) :
    ∀ es i st, (∀ b ∈ st.branches, P b) →
      ∀ b ∈ (explore_branch_edges rec branch_id branch_name depth
          current_outputs parent_outputs path' bv' steps' es i st).branches, P b := by
  intro es
  induction es with
  | nil => intro i st h; simpa [explore_branch_edges] using h
  | cons e rest ih =>
      intro i st h
      rw [explore_branch_edges]
      by_cases ht : e.target ∈ path'
      · simp only [if_pos ht]
        exact ih _ _ h
      · simp only [if_neg ht]
        by_cases hi : (i == 0) = true
        · simp only [hi, if_true]
          exact ih _ _ (hrec _ _ _ _ _ _ _ h)
        · simp only [hi, if_false]
          exact ih _ _ (hrec _ _ _ _ _ _ _ h)

/-- Exploration invariant for C2: if the steps accumulated so far mirror a
duplicate-free path, every branch ever emitted has duplicate-free step
node ids. -/
theorem explore_branch_preserves_nodup (nodes : List Node) (edges : List Edge)
    (initial_value : Value) (py_str : Value → String) :
    ∀ fuel current branch_id branch_name depth input_data path bv steps pout st,
      steps.map FlowStep.nodeId = path → path.Nodup →
      (∀ b ∈ st.branches, (b.steps.map FlowStep.nodeId).Nodup) →
      ∀ b ∈ (explore_branch nodes edges initial_value py_str fuel current
          branch_id branch_name depth input_data path bv steps pout st).branches,
        (b.steps.map FlowStep.nodeId).Nodup := by
  intro fuel
  induction fuel with
  | zero =>
      intro current bid bname depth inp path bv steps pout st _ _ h
      simpa [explore_branch] using h
  | succ n ih =>
      intro current bid bname depth inp path bv steps pout st hsp hnd h
      rw [explore_branch]
      by_cases hcp : current ∈ path
      · simp only [if_pos hcp]; exact h
      · simp only [if_neg hcp]
        cases hfind : node_map_get nodes current with
        | none => exact h
        | some node =>
            simp only
            have hbr := (node_outputs_branches initial_value py_str node current inp st).1
            have hnd' : (path ++ [current]).Nodup :=
              hnd.append (List.nodup_singleton _)
                (fun a ha hb => hcp ((List.mem_singleton.1 hb) ▸ ha))
            have hsp' : (steps ++ [create_step current bid depth inp
                (node.data.type == some "type")
                (node_outputs initial_value py_str node current inp st).1
                node.data.params]).map FlowStep.nodeId = path ++ [current] := by
              simp only [List.map_append, create_step, List.map_cons, List.map_nil]
              rw [hsp]
            by_cases hout : (get_outgoing_edges edges current).isEmpty
            · simp only [hout, if_true]
              intro b hb
              rw [hbr] at hb
              rcases List.mem_append.1 hb with hb' | hb'
              · exact h b hb'
              · have hb'' : b = ⟨bid, bname,
                    steps ++ [create_step current bid depth inp
                      (node.data.type == some "type")
                      (node_outputs initial_value py_str node current inp st).1
                      node.data.params]⟩ := List.mem_singleton.1 hb'
                subst hb''
                rw [hsp']
                exact hnd'
            · simp only [hout, if_false]
              refine explore_branch_edges_preserves _ _ _ _ _ _ _ _ _
                (fun tgt bid' bname' d' inp' pout' st' h' =>
                  ih tgt bid' bname' d' inp' (path ++ [current]) _ _ pout' st'
                    hsp' hnd' h') _ _ _ ?_
              intro b hb; rw [hbr] at hb; exact h b hb

/-- Exploration invariant for C5: steps are only ever created for node ids
that resolve in the node map, so every emitted branch references only
nodes of the graph. -/
theorem explore_branch_preserves_refs (nodes : List Node) (edges : List Edge)
    (initial_value : Value) (py_str : Value → String) :
    ∀ fuel current branch_id branch_name depth input_data path bv steps pout st,
      (∀ s ∈ steps, FlowStep.nodeId s ∈ nodes.map Node.id) →
      (∀ b ∈ st.branches, ∀ s ∈ b.steps, FlowStep.nodeId s ∈ nodes.map Node.id) →
      ∀ b ∈ (explore_branch nodes edges initial_value py_str fuel current
          branch_id branch_name depth input_data path bv steps pout st).branches,
        ∀ s ∈ b.steps, FlowStep.nodeId s ∈ nodes.map Node.id := by
  intro fuel
  induction fuel with
  | zero =>
      intro current bid bname depth inp path bv steps pout st _ h
      simpa [explore_branch] using h
  | succ n ih =>
      intro current bid bname depth inp path bv steps pout st hsteps h
      rw [explore_branch]
      by_cases hcp : current ∈ path
      · simp only [if_pos hcp]; exact h
      · simp only [if_neg hcp]
        cases hfind : node_map_get nodes current with
        | none => exact h
        | some node =>
            simp only
            have hmem : current ∈ nodes.map Node.id := by
              obtain ⟨hn, hid⟩ := node_map_get_mem hfind
              exact List.mem_map.2 ⟨node, hn, hid⟩
            have hbr := (node_outputs_branches initial_value py_str node current inp st).1
            have hsteps' : ∀ s ∈ steps ++ [create_step current bid depth inp
                (node.data.type == some "type")
                (node_outputs initial_value py_str node current inp st).1
                node.data.params], FlowStep.nodeId s ∈ nodes.map Node.id := by
              intro s hs
              rcases List.mem_append.1 hs with hs' | hs'
              · exact hsteps s hs'
              · rw [List.mem_singleton.1 hs']
                simpa [create_step] using hmem
            by_cases hout : (get_outgoing_edges edges current).isEmpty
            · simp only [hout, if_true]
              intro b hb
              rw [hbr] at hb
              rcases List.mem_append.1 hb with hb' | hb'
              · exact h b hb'
              · rw [List.mem_singleton.1 hb']
                exact hsteps'
            · simp only [hout, if_false]
              refine explore_branch_edges_preserves _ _ _ _ _ _ _ _ _
                (fun tgt bid' bname' d' inp' pout' st' h' =>
                  ih tgt bid' bname' d' inp' (path ++ [current]) _ _ pout' st'
                    hsteps' h') _ _ _ ?_
              intro b hb; rw [hbr] at hb; exact h b hb

/-- A branch property is preserved through the seed loop whenever every
top-level exploration preserves it. -/
theorem explore_seeds_preserves (P : FlowBranch → Prop) (nodes : List Node)
    (edges : List Edge) (initial_value : Value) (py_str : Value → String)
    (fuel : Nat) (many : Bool)
    (hexp : ∀ current bid bname st, (∀ b ∈ st.branches, P b) →
      ∀ b ∈ (explore_branch nodes edges initial_value py_str fuel current
        bid bname 0 [] [] [] [] none st).branches, P b) :
    ∀ seeds idx st, (∀ b ∈ st.branches, P b) →
      ∀ b ∈ (explore_seeds nodes edges initial_value py_str fuel many
          seeds idx st).branches, P b := by
  intro seeds
  induction seeds with
  | nil => intro idx st h; simpa [explore_seeds] using h
  | cons nd rest ih =>
      intro idx st h
      rw [explore_seeds]
      exact ih _ _ (hexp _ _ _ _ h)

/-- Past `explore_fuel`, the seed loop (hence the whole compilation) does
not depend on the fuel. -/
theorem explore_seeds_fuel_stable (nodes : List Node) (edges : List Edge)
    (initial_value : Value) (py_str : Value → String) (many : Bool)
    (f₁ f₂ : Nat) (h₁ : explore_fuel nodes ≤ f₁) (h₂ : explore_fuel nodes ≤ f₂) :
    ∀ seeds idx st,
      explore_seeds nodes edges initial_value py_str f₁ many seeds idx st =
        explore_seeds nodes edges initial_value py_str f₂ many seeds idx st := by
  intro seeds
  induction seeds with
  | nil => intro idx st; rfl
  | cons nd rest ih =>
      intro idx st
      rw [explore_seeds, explore_seeds]
      have hb : eb_unvisited nodes [] < explore_fuel nodes := by
        have := eb_unvisited_le nodes []
        unfold explore_fuel
        omega
      rw [explore_branch_fuel_stable nodes edges initial_value py_str f₁ f₂
        nd.id _ _ 0 [] [] [] [] none st (by omega) (by omega)]
      exact ih _ _

/-! ## Claims about the branch compiler -/

/-- C2: no branch ever emitted by `compute_flow_branches` (cycles included)
contains two steps with the same `nodeId`; and, mechanism: the edge loop
skips any edge whose target is already in the current branch's path.
(Fork copies are by value in this model, matching `path[:]` /
`branch_visited.copy()` in the source.) -/
theorem compute_flow_branches_cycle_safe :
    (∀ (py_str : Value → String) (initial_value : Value) (nodes : List Node)
        (edges : List Edge) (b : FlowBranch),
        b ∈ compute_flow_branches py_str initial_value nodes edges →
        (b.steps.map FlowStep.nodeId).Nodup) ∧
    (∀ rec branch_id branch_name depth current_outputs parent_outputs
        path' bv' steps' (e : Edge) rest i st, e.target ∈ path' →
        explore_branch_edges rec branch_id branch_name depth current_outputs
            parent_outputs path' bv' steps' (e :: rest) i st =
          explore_branch_edges rec branch_id branch_name depth current_outputs
            parent_outputs path' bv' steps' rest (i + 1) st) := by
  constructor
  · intro ps iv nodes edges b hb
    simp only [compute_flow_branches, compute_flow_branches_fueled] at hb
    by_cases he : (nodes.filter (fun n => n.data.type == some "type")).isEmpty
    · rw [if_pos he] at hb
      rw [List.mem_singleton.1 hb]
      simp [error_branch]
    · rw [if_neg he] at hb
      rw [List.mem_insertionSort] at hb
      refine explore_seeds_preserves _ nodes edges iv ps _ _
        (fun current bid bname st h =>
          explore_branch_preserves_nodup nodes edges iv ps _ current bid bname
            0 [] [] [] [] none st rfl List.nodup_nil h)
        _ 0 ⟨[], 0, []⟩ ?_ b hb
      intro b' hb'
      cases hb'
  · intro rec bid bname depth co pout p' bv' s' e rest i st ht
    rw [explore_branch_edges, if_pos ht]

/-- The stand-in used to instantiate the `py_str` parameter (Python's
builtin `str`) in concrete examples; none of them depend on its values. -/
def py_str_stub : Value → String := fun _ => "value"

/-- A single seed (type) node with one declared output field. -/
def cex_type_node : Node :=
  ⟨"t", ⟨some "type", [⟨some "out"⟩], [], ""⟩⟩

/-- An edge from the seed node to a node id absent from the node list. -/
def cex_dangling_edge : Edge := ⟨"t", none, "missing", none⟩

/-- An edge pointing back at the seed node. -/
def cex_loop_edge : Edge := ⟨"x", none, "t", none⟩

/-- The single branch compiled from `[cex_type_node]` with no edges. -/
def cex_seed_branch : FlowBranch :=
  ⟨"branch-0", "Main Flow",
    [{ nodeId := "t", params := [], inputs := [], outputs := [("out", .str "s")],
       type := "type", status := "pending", branchId := "branch-0", depth := 0 }]⟩

theorem compute_flow_branches_cycle_safe_witness :
    (cex_seed_branch.steps.map FlowStep.nodeId).Nodup ∧
      explore_branch_edges (fun _ _ _ _ _ _ _ _ _ st => st) "b" "n" 0 [] none
          ["t"] [] [] [cex_loop_edge] 0 ⟨[], 0, []⟩ =
        explore_branch_edges (fun _ _ _ _ _ _ _ _ _ st => st) "b" "n" 0 [] none
          ["t"] [] [] [] 1 ⟨[], 0, []⟩ := by
  constructor
  · refine compute_flow_branches_cycle_safe.1 py_str_stub (.str "s")
      [cex_type_node] [] cex_seed_branch ?_
    have h : compute_flow_branches py_str_stub (.str "s") [cex_type_node] [] =
        [cex_seed_branch] := rfl
    rw [h]
    exact List.mem_singleton.2 rfl
  · exact compute_flow_branches_cycle_safe.2 _ _ _ _ _ _ _ _ _ _ _ _ _
      (by decide)

/-- C5 counterexample: with one type node whose only outgoing edge points
at a node id that is not in the node list, `compute_flow_branches` returns
the empty list — refuting the claimed unconditional non-emptiness (the
seed node has an outgoing edge, so it is not a leaf, and no exploration
path ever reaches a leaf to emit a branch). -/
theorem compute_flow_branches_empty_cex :
    compute_flow_branches py_str_stub (.str "seed") [cex_type_node]
      [cex_dangling_edge] = [] := by rfl

/-- C5 (amended): for every seed value and node/edge lists the compilation
terminates — any fuel past `explore_fuel nodes` computes the same result;
when the node list contains no type node the result is exactly the single
synthetic error branch (status `error`, type `error`); otherwise every
step of every returned branch references a node of the input graph.  The
returned list may however be empty (see
`compute_flow_branches_empty_cex`). -/
theorem compute_flow_branches_total :
    (∀ (py_str : Value → String) (initial_value : Value) (nodes : List Node)
        (edges : List Edge) (fuel : Nat), explore_fuel nodes ≤ fuel →
        compute_flow_branches_fueled py_str initial_value nodes edges fuel =
          compute_flow_branches py_str initial_value nodes edges) ∧
    (∀ (py_str : Value → String) (initial_value : Value) (nodes : List Node)
        (edges : List Edge),
        (nodes.filter (fun n => n.data.type == some "type")).isEmpty = true →
        compute_flow_branches py_str initial_value nodes edges =
          [error_branch] ∧ error_branch.steps.length = 1 ∧
          (error_branch.steps.map FlowStep.status) = ["error"] ∧
          (error_branch.steps.map FlowStep.type) = ["error"]) ∧
    (∀ (py_str : Value → String) (initial_value : Value) (nodes : List Node)
        (edges : List Edge) (b : FlowBranch),
        b ∈ compute_flow_branches py_str initial_value nodes edges →
        ∀ s ∈ b.steps, FlowStep.nodeId s ∈ nodes.map Node.id ∨ b = error_branch) := by
  refine ⟨?_, ?_, ?_⟩
  · intro ps iv nodes edges fuel hf
    simp only [compute_flow_branches, compute_flow_branches_fueled]
    by_cases he : (nodes.filter (fun n => n.data.type == some "type")).isEmpty
    · rw [if_pos he, if_pos he]
    · rw [if_neg he, if_neg he]
      rw [explore_seeds_fuel_stable nodes edges iv ps _ fuel
        (explore_fuel nodes) hf (le_refl _)]
  · intro ps iv nodes edges he
    refine ⟨?_, rfl, rfl, rfl⟩
    simp only [compute_flow_branches, compute_flow_branches_fueled]
    rw [if_pos he]
  · intro ps iv nodes edges b hb
    simp only [compute_flow_branches, compute_flow_branches_fueled] at hb
    by_cases he : (nodes.filter (fun n => n.data.type == some "type")).isEmpty
    · rw [if_pos he] at hb
      intro s _
      exact Or.inr (List.mem_singleton.1 hb)
    · rw [if_neg he] at hb
      rw [List.mem_insertionSort] at hb
      intro s hs
      refine Or.inl ?_
      refine explore_seeds_preserves
        (fun b' => ∀ s' ∈ b'.steps, FlowStep.nodeId s' ∈ nodes.map Node.id)
        nodes edges iv ps _ _
        (fun current bid bname st h =>
          explore_branch_preserves_refs nodes edges iv ps _ current bid bname
            0 [] [] [] [] none st (fun s' hs' => absurd hs' (List.not_mem_nil s')) h)
        _ 0 ⟨[], 0, []⟩ ?_ b hb s hs
      intro b' hb'
      cases hb'

theorem compute_flow_branches_total_witness :
    (compute_flow_branches_fueled py_str_stub (.str "s") [cex_type_node] []
        (explore_fuel [cex_type_node] + 3) =
      compute_flow_branches py_str_stub (.str "s") [cex_type_node] []) ∧
    (compute_flow_branches py_str_stub (.str "s") [] [cex_dangling_edge] =
      [error_branch]) ∧
    ((⟨"t", [], [], [("out", .str "s")], "type", "pending", "branch-0", 0⟩ :
        FlowStep).nodeId ∈ [cex_type_node].map Node.id ∨
      cex_seed_branch = error_branch) := by
  refine ⟨?_, ?_, ?_⟩
  · exact compute_flow_branches_total.1 py_str_stub (.str "s") [cex_type_node]
      [] _ (by decide)
  · exact (compute_flow_branches_total.2.1 py_str_stub (.str "s") []
      [cex_dangling_edge] (by decide)).1
  · refine compute_flow_branches_total.2.2 py_str_stub (.str "s")
      [cex_type_node] [] cex_seed_branch ?_ _ ?_
    · have h : compute_flow_branches py_str_stub (.str "s") [cex_type_node] [] =
          [cex_seed_branch] := rfl
      rw [h]
      exact List.mem_singleton.2 rfl
    · exact List.mem_singleton.2 rfl

/-- C6: at every visited node the outgoing edges are a permutation of the
node's out-edges, sorted ascending by the shortest-path-to-leaf key with
ties keeping the original listing order (stability); the index-0 edge
extends the current branch under the same branch id and name, while every
further edge forks under a freshly numbered branch id; and the final list
of branches is sorted ascending by number of steps. -/
theorem compute_flow_branches_ordering :
    (∀ (edges : List Edge) (node_id : String),
        List.Perm (get_outgoing_edges edges node_id)
            (edges.filter (fun e => e.source == node_id)) ∧
          List.Pairwise (edge_key_le edges) (get_outgoing_edges edges node_id) ∧
          (∀ e₁ e₂ : Edge, edge_key_le edges e₁ e₂ →
            List.Sublist [e₁, e₂] (edges.filter (fun e => e.source == node_id)) →
            List.Sublist [e₁, e₂] (get_outgoing_edges edges node_id))) ∧
    (∀ rec branch_id branch_name depth current_outputs parent_outputs
        path' bv' steps' (e : Edge) rest st, e.target ∉ path' →
        explore_branch_edges rec branch_id branch_name depth current_outputs
            parent_outputs path' bv' steps' (e :: rest) 0 st =
          explore_branch_edges rec branch_id branch_name depth current_outputs
            parent_outputs path' bv' steps' rest 1
            (rec e.target branch_id branch_name (depth + 1)
              (edge_next_input current_outputs parent_outputs e)
              path' bv' steps' (some current_outputs) st)) ∧
    (∀ rec branch_id branch_name depth current_outputs parent_outputs
        path' bv' steps' (e : Edge) rest i st, e.target ∉ path' → i ≠ 0 →
        explore_branch_edges rec branch_id branch_name depth current_outputs
            parent_outputs path' bv' steps' (e :: rest) i st =
          explore_branch_edges rec branch_id branch_name depth current_outputs
            parent_outputs path' bv' steps' rest (i + 1)
            (rec e.target (branch_id ++ "-" ++ toString (st.branch_counter + 1))
              (branch_name ++ " (Branch " ++ toString (st.branch_counter + 1) ++ ")")
              (depth + 1) (edge_next_input current_outputs parent_outputs e)
              path' bv' steps' (some current_outputs)
              { st with branch_counter := st.branch_counter + 1 })) ∧
    (∀ (py_str : Value → String) (initial_value : Value) (nodes : List Node)
        (edges : List Edge),
        List.Pairwise branch_len_le
          (compute_flow_branches py_str initial_value nodes edges)) := by
  refine ⟨?_, ?_, ?_, ?_⟩
  · intro edges node_id
    haveI : IsTotal Edge (edge_key_le edges) := ⟨fun a b => le_total _ _⟩
    haveI : IsTrans Edge (edge_key_le edges) :=
      ⟨fun a b c hab hbc => le_trans hab hbc⟩
    exact ⟨List.perm_insertionSort _ _,
      List.sorted_insertionSort _ _,
      fun e₁ e₂ h₁₂ hsub => List.pair_sublist_insertionSort h₁₂ hsub⟩
  · intro rec bid bname depth co pout p' bv' s' e rest st ht
    rw [explore_branch_edges, if_neg ht]
    rfl
  · intro rec bid bname depth co pout p' bv' s' e rest i st ht hi
    rw [explore_branch_edges, if_neg ht]
    have hb : (i == 0) = false := by simpa using hi
    simp [hb]
  · intro ps iv nodes edges
    haveI : IsTotal FlowBranch branch_len_le := ⟨fun a b => le_total _ _⟩
    haveI : IsTrans FlowBranch branch_len_le :=
      ⟨fun a b c hab hbc => le_trans hab hbc⟩
    simp only [compute_flow_branches, compute_flow_branches_fueled]
    by_cases he : (nodes.filter (fun n => n.data.type == some "type")).isEmpty
    · rw [if_pos he]
      exact List.pairwise_singleton _ _
    · rw [if_neg he]
      exact List.sorted_insertionSort _ _

/-- Two sibling edges out of the seed node, with tied keys. -/
def cex_edge_a : Edge := ⟨"t", none, "a", none⟩

def cex_edge_b : Edge := ⟨"t", none, "b", none⟩

theorem compute_flow_branches_ordering_witness :
    List.Sublist [cex_edge_a, cex_edge_b]
        (get_outgoing_edges [cex_edge_a, cex_edge_b] "t") ∧
      (explore_branch_edges (fun _ _ _ _ _ _ _ _ _ st => st) "b" "n" 0 [] none
          [] [] [] [cex_dangling_edge] 0 ⟨[], 0, []⟩ =
        explore_branch_edges (fun _ _ _ _ _ _ _ _ _ st => st) "b" "n" 0 [] none
          [] [] [] [] 1 ⟨[], 0, []⟩) ∧
      (explore_branch_edges (fun _ _ _ _ _ _ _ _ _ st => st) "b" "n" 0 [] none
          [] [] [] [cex_dangling_edge] 1 ⟨[], 0, []⟩ =
        explore_branch_edges (fun _ _ _ _ _ _ _ _ _ st => st) "b" "n" 0 [] none
          [] [] [] [] 2 ⟨[], 1, []⟩) := by
  refine ⟨?_, ?_, ?_⟩
  · refine (compute_flow_branches_ordering.1 [cex_edge_a, cex_edge_b] "t").2.2
      cex_edge_a cex_edge_b (by decide) ?_
    have h : [cex_edge_a, cex_edge_b].filter (fun e => e.source == "t") =
        [cex_edge_a, cex_edge_b] := rfl
    rw [h]
  · exact compute_flow_branches_ordering.2.1 _ _ _ _ _ _ _ _ _ _ _ _
      (by decide)
  · exact compute_flow_branches_ordering.2.2.1 _ _ _ _ _ _ _ _ _ _ _ _ _
      (by decide) (by decide)

/-! ## Orchestrator (`FlowOrchestrator`, `orchestrator.py`)

The enrichers loaded for a run are abstracted by their behaviour visible
to the orchestrator (`name()`, `key()`, and `execute` as a function of the
inputs); `py_str` stands for Python's builtin `str` used to build cache
keys.  The state record carries a ghost `trace` listing every actual
`enricher.execute` invocation — it observes the run without altering it. -/

/-- Outcome of one `await enricher.execute(inputs)` call. -/
inductive ExecOutcome where
  | ok (v : Value) : ExecOutcome
  | validation_error (msg : String) : ExecOutcome
  | exn (msg : String) : ExecOutcome

/-- The behaviour of one loaded enricher instance. -/
structure EnricherB where
  name : String
  key : String
  execute : Value → ExecOutcome

/-- Orchestrator configuration: the `self.enrichers` map built by
`_load_enrichers`, and the stand-in for Python's builtin `str`. -/
structure OrchConfig where
  enrichers : List (String × EnricherB)
  py_str : Value → String

/-- One entry of the `execution_log` list.  The wall-clock fields
(`timestamp`, `execution_time_ms`) are omitted; `cache_hit` is `none` when
the Python dict has no such key. -/
structure LogEntry where
  step_id : String
  branch_id : String
  branch_name : String
  node_id : String
  enricher_name : String
  inputs : Value
  outputs : Option Value
  status : String
  error : Option String
  cache_hit : Option Bool

/-- One entry of a branch's `steps` in the returned results. -/
structure StepResult where
  nodeId : String
  enricher : String
  status : String
  outputs : Option Value
  error : Option String

/-- One entry of `results["branches"]`. -/
structure BranchResult where
  id : String
  name : String
  steps : List StepResult

/-- The value returned by `_async_scan`.  `reference_mapping` is `none`
when the run aborted before the final `results["reference_mapping"]`
assignment. -/
structure ScanResults where
  initial_values : Value
  branches : List BranchResult
  results : List (String × Value)
  reference_mapping : Option (List (Value × Value))

/-- The persisted execution-log file (timestamps omitted). -/
structure ExecLog where
  status : String
  total_steps : Nat
  completed_steps : Nat
  failed_steps : Nat
  entries : List LogEntry
  final_results : Option ScanResults

/-- The state mutated by `_async_scan`, plus the ghost `trace` of actual
`enricher.execute` invocations `(node_id, inputs)`. -/
structure ScanState where
  log : ExecLog
  results_mapping : List (Value × Value)
  cache : List (String × Value)
  results : List (String × Value)
  branches_out : List BranchResult
  trace : List (String × Value)

/-- `_update_execution_log(entry)` with no status change: append the entry
and bump the summary counters. -/
def update_execution_log (log : ExecLog) (entry : LogEntry) : ExecLog :=
  { log with
    entries := log.entries ++ [entry]
    completed_steps :=
      log.completed_steps + (if entry.status == "completed" then 1 else 0)
    failed_steps :=
      log.failed_steps + (if entry.status == "error" then 1 else 0) }

/-- `resolve_reference` from the orchestrator: look the reference name up
in the results mapping, `None` when absent. -/
def resolve_reference (ref_value : String)
    (results_mapping : List (Value × Value)) : Option Value :=
  vdict_get results_mapping (.str ref_value)

/-- `update_results_mapping` from the orchestrator.  `outputs` is whatever
`execute` returned (a dict or a list, per the preceding `isinstance`
check); on a list, `output_key in outputs` is Python list membership, and
the subsequent `outputs[output_key]` with a string key raises `TypeError`,
which the caller's `except Exception` turns into a step error. -/
def update_results_mapping (outputs : Value)
    (step_outputs : List (String × Value))
    (results_mapping : List (Value × Value)) :
    Except String (List (Value × Value)) :=
  step_outputs.foldl
    (fun acc kv =>
      match acc with
      | .error m => .error m
      | .ok m =>
          match outputs with
          | .obj fs =>
              match dict_get fs kv.1 with
              | some v => .ok (vdict_set m kv.2 v)
              | none => .ok m
          | .list xs =>
              if xs.any (fun x => Value.beq x (.str kv.1)) then
                .error "TypeError: list indices must be integers or slices, not str"
              else .ok m
          | _ => .error "TypeError: argument is not a container")
    (.ok results_mapping)

/-- The per-run cache key `f"{node_id}:{str(enricher_inputs)}"`: the
stringified `(nodeId, inputs)` pair. -/
def mk_cache_key (cfg : OrchConfig) (node_id : String) (inputs : Value) :
    String :=
  node_id ++ ":" ++ cfg.py_str inputs

/-- The base log entry created for a step before it runs. -/
def base_log_entry (branch_id branch_name : String) (node_id : String)
    (enricher_name : String) (inputs : Value) : LogEntry :=
  { step_id := branch_id ++ "_" ++ node_id
    branch_id := branch_id
    branch_name := branch_name
    node_id := node_id
    enricher_name := enricher_name
    inputs := inputs
    outputs := none
    status := "running"
    error := none
    cache_hit := none }

/-- The step loop of `_async_scan` for one branch.  Arguments: the branch
steps still to process, the state, the current `enricher_inputs` value,
and the accumulated `branch_results["steps"]`.  The returned flag is true
when the Python code executed `return results` (a step raised), in which
case the pending step result is *not* appended, matching the source. -/
def run_steps (cfg : OrchConfig) (branch_id branch_name : String) :
    List FlowStep → ScanState → Value → List StepResult →
      ScanState × List StepResult × Bool
  | [], st, _, acc => (st, acc, false)
  | step :: rest, st, cur, acc =>
      if step.type == "type" then
        run_steps cfg branch_id branch_name rest st cur acc
      else
        match (cfg.enrichers.find? (fun kv => kv.1 == step.nodeId)).map (·.2) with
        | none => run_steps cfg branch_id branch_name rest st cur acc
        | some enr =>
            let base := base_log_entry branch_id branch_name step.nodeId enr.name cur
            if py_truthy cur = false then
              let entry := { base with
                status := "error"
                error := some "No inputs available" }
              let sr : StepResult := {
                nodeId := step.nodeId
                enricher := enr.name
                status := "error"
                outputs := none
                error := some "No inputs available" }
              run_steps cfg branch_id branch_name rest
                { st with log := update_execution_log st.log entry } cur
                (acc ++ [sr])
            else
              let cache_key := mk_cache_key cfg step.nodeId cur
              let success := fun (outs : Value) (hit : Bool) (st₁ : ScanState) =>
                match update_results_mapping outs step.outputs st₁.results_mapping with
                | .ok m' =>
                    let entry := { base with
                      outputs := some outs
                      status := "completed"
                      cache_hit := some hit }
                    let sr : StepResult := {
                      nodeId := step.nodeId
                      enricher := enr.name
                      status := "completed"
                      outputs := some outs
                      error := none }
                    run_steps cfg branch_id branch_name rest
                      { st₁ with
                        results_mapping := m'
                        results := dict_set st₁.results step.nodeId outs
                        log := update_execution_log st₁.log entry }
                      outs (acc ++ [sr])
                | .error m =>
                    let msg := "Error during scan: " ++ m
                    let entry := { base with
                      outputs := some outs
                      status := "error"
                      error := some msg
                      cache_hit := some hit }
                    ({ st₁ with
                        results := dict_set st₁.results step.nodeId
                          (.obj [("error", .str msg)])
                        log := update_execution_log st₁.log entry },
                      acc, true)
              match (st.cache.find? (fun kv => kv.1 == cache_key)).map (·.2) with
              | some outs => success outs true st
              | none =>
                  match enr.execute cur with
                  | .ok v =>
                      let st₁ := { st with trace := st.trace ++ [(step.nodeId, cur)] }
                      if is_dict_or_list v then
                        success v false
                          { st₁ with cache := st₁.cache ++ [(cache_key, v)] }
                      else
                        let msg := "Error during scan: Enricher '" ++ enr.name ++
                          "' returned unsupported output format"
                        let entry := { base with
                          status := "error"
                          error := some msg }
                        ({ st₁ with
                            results := dict_set st₁.results step.nodeId
                              (.obj [("error", .str msg)])
                            log := update_execution_log st₁.log entry },
                          acc, true)
                  | .validation_error m =>
                      let msg := "Validation error: " ++ m
                      let st₁ := { st with trace := st.trace ++ [(step.nodeId, cur)] }
                      let entry := { base with
                        status := "error"
                        error := some msg }
                      ({ st₁ with
                          results := dict_set st₁.results step.nodeId
                            (.obj [("error", .str msg)])
                          log := update_execution_log st₁.log entry },
                        acc, true)
                  | .exn m =>
                      let msg := "Error during scan: " ++ m
                      let st₁ := { st with trace := st.trace ++ [(step.nodeId, cur)] }
                      let entry := { base with
                        status := "error"
                        error := some msg }
                      ({ st₁ with
                          results := dict_set st₁.results step.nodeId
                            (.obj [("error", .str msg)])
                          log := update_execution_log st₁.log entry },
                        acc, true)

/-- One iteration of the branch loop: run the branch's steps (the
`enricher_inputs` start as the run's seed `values`); if no step raised,
append the branch's results, otherwise propagate the early return without
appending them (matching the `return results` before the appends). -/
def run_branch (cfg : OrchConfig) (values : Value) (branch : FlowBranch)
    (st : ScanState) : ScanState × Bool :=
  match run_steps cfg branch.id branch.name branch.steps st values [] with
  | (st', _, true) => (st', true)
  | (st', acc, false) =>
      ({ st' with branches_out :=
          st'.branches_out ++ [⟨branch.id, branch.name, acc⟩] }, false)

/-- The branch loop of `_async_scan`, with the early return of the source
short-circuiting all remaining branches. -/
def run_branches (cfg : OrchConfig) (values : Value) :
    List FlowBranch → ScanState → ScanState × Bool
  | [], st => (st, false)
  | b :: rest, st =>
      match run_branch cfg values b st with
      | (st', true) => (st', true)
      | (st', false) => run_branches cfg values rest st'

/-- The log's total-steps count set by `_create_execution_log`: all
non-type steps across the branches. -/
def count_total_steps (branches : List FlowBranch) : Nat :=
  ((branches.map FlowBranch.steps).flatten.filter (fun s => s.type != "type")).length

/-- The state at the top of `_async_scan`, after
`_update_execution_log(None, "running")` switched the freshly created log
(status `initialized`) to `running`: empty results mapping, empty per-run
cache, empty results. -/
def initial_scan_state (branches : List FlowBranch) : ScanState :=
  { log := { status := "running", total_steps := count_total_steps branches,
             completed_steps := 0, failed_steps := 0, entries := [],
             final_results := none }
    results_mapping := []
    cache := []
    results := []
    branches_out := []
    trace := [] }

/-- `_async_scan`: run all branches from the initial state; on normal
completion attach `reference_mapping`, finalize the log
(`_finalize_execution_log`: status `completed`, `final_results` filled);
on an early return hand back the results as they stand, with the log left
unfinalized. -/
def async_scan (cfg : OrchConfig) (branches : List FlowBranch)
    (values : Value) : ScanResults × ScanState :=
  match run_branches cfg values branches (initial_scan_state branches) with
  | (st, true) =>
      ({ initial_values := values, branches := st.branches_out,
         results := st.results, reference_mapping := none }, st)
  | (st, false) =>
      let res : ScanResults :=
        { initial_values := values, branches := st.branches_out,
          results := st.results, reference_mapping := some st.results_mapping }
      (res, { st with log :=
          { st.log with status := "completed", final_results := some res } })

/-- C9: a step whose current inputs are Python-falsy is recorded as an
error with message `"No inputs available"` and the loop *continues* with
the remaining steps (no early return); likewise, a step whose `nodeId` has
no loaded enricher instance is skipped (only a logger call) and the loop
continues — in contrast with the exception paths, which return
immediately. -/
theorem orchestrator_continue_on_missing_inputs :
    (∀ (cfg : OrchConfig) (branch_id branch_name : String) (step : FlowStep)
        rest st cur acc (enr : EnricherB),
        (step.type == "type") = false →
        (cfg.enrichers.find? (fun kv => kv.1 == step.nodeId)).map (·.2) = some enr →
        py_truthy cur = false →
        run_steps cfg branch_id branch_name (step :: rest) st cur acc =
          run_steps cfg branch_id branch_name rest
            { st with
              log := update_execution_log st.log
                { base_log_entry branch_id branch_name step.nodeId enr.name cur with
                  status := "error"
                  error := some "No inputs available" } }
            cur
            (acc ++ [{ nodeId := step.nodeId, enricher := enr.name,
                       status := "error", outputs := none,
                       error := some "No inputs available" }])) ∧
    (∀ (cfg : OrchConfig) (branch_id branch_name : String) (step : FlowStep)
        rest st cur acc,
        (step.type == "type") = false →
        (cfg.enrichers.find? (fun kv => kv.1 == step.nodeId)).map (·.2) = none →
        run_steps cfg branch_id branch_name (step :: rest) st cur acc =
          run_steps cfg branch_id branch_name rest st cur acc) := by
  constructor
  · intro cfg bid bname step rest st cur acc enr h1 h2 h3
    rw [run_steps]
    simp only [h1, Bool.false_eq_true, if_false, h2, h3, eq_self_iff_true,
      if_true]
  · intro cfg bid bname step rest st cur acc h1 h2
    rw [run_steps]
    simp only [h1, Bool.false_eq_true, if_false, h2]

/-- The mutable-state enricher for concrete counterexamples: its `execute`
always raises. -/
def cex_fail_enricher : EnricherB :=
  { name := "boom", key := "k", execute := fun _ => .exn "network down" }

/-- Configuration loading only the failing enricher under node `boom-1`. -/
def cex_orch_cfg : OrchConfig :=
  { enrichers := [("boom-1", cex_fail_enricher)], py_str := py_str_stub }

/-- A branch step bound to the failing enricher. -/
def cex_fail_step : FlowStep :=
  { nodeId := "boom-1", params := [], inputs := [], outputs := [],
    type := "enricher", status := "pending", branchId := "branch-0", depth := 1 }

/-- A step whose `nodeId` has no loaded enricher. -/
def cex_ghost_step : FlowStep :=
  { nodeId := "ghost-1", params := [], inputs := [], outputs := [],
    type := "enricher", status := "pending", branchId := "branch-0", depth := 1 }

/-- The single-branch flow running the failing enricher. -/
def cex_fail_branch : FlowBranch := ⟨"branch-0", "Main Flow", [cex_fail_step]⟩

theorem orchestrator_continue_on_missing_inputs_witness :
    (run_steps cex_orch_cfg "b" "n" [cex_fail_step]
        (initial_scan_state []) (.list []) []).2.2 = false ∧
      (run_steps cex_orch_cfg "b" "n" [cex_ghost_step]
        (initial_scan_state []) (.list [.str "x"]) []).2.2 = false := by
  constructor
  · rw [orchestrator_continue_on_missing_inputs.1 cex_orch_cfg "b" "n"
      cex_fail_step [] (initial_scan_state []) (.list []) [] cex_fail_enricher
      rfl rfl rfl]
    rfl
  · rw [orchestrator_continue_on_missing_inputs.2 cex_orch_cfg "b" "n"
      cex_ghost_step [] (initial_scan_state []) (.list [.str "x"]) [] rfl rfl]
    rfl

/-- The log fields touched only by `_finalize_execution_log`. -/
def log_meta (st : ScanState) : String × Option ScanResults :=
  (st.log.status, st.log.final_results)

/-- The step loop never changes the log's status nor its `final_results`:
`_update_execution_log` is called without a status argument throughout the
run. -/
theorem run_steps_log_meta (cfg : OrchConfig) (bid bname : String) :
    ∀ steps st cur acc,
      log_meta (run_steps cfg bid bname steps st cur acc).1 = log_meta st := by
  intro steps
  induction steps with
  | nil => intro st cur acc; rfl
  | cons s rest ih =>
      intro st cur acc
      simp only [run_steps]
      repeat' split
      all_goals first
        | exact (ih _ _ _).trans rfl
        | rfl

/-- A branch run never changes the log's status nor `final_results`. -/
theorem run_branch_log_meta (cfg : OrchConfig) (values : Value)
    (b : FlowBranch) (st : ScanState) :
    log_meta (run_branch cfg values b st).1 = log_meta st := by
  unfold run_branch
  split
  · next st' _ h =>
      have hm := run_steps_log_meta cfg b.id b.name b.steps st values []
      rw [h] at hm
      exact hm
  · next st' acc h =>
      have hm := run_steps_log_meta cfg b.id b.name b.steps st values []
      rw [h] at hm
      exact hm

/-- The branch loop never changes the log's status nor `final_results`. -/
theorem run_branches_log_meta (cfg : OrchConfig) (values : Value) :
    ∀ branches st, log_meta (run_branches cfg values branches st).1 = log_meta st := by
  intro branches
  induction branches with
  | nil => intro st; rfl
  | cons b rest ih =>
      intro st
      simp only [run_branches]
      split
      · next st' h =>
          have hm := run_branch_log_meta cfg values b st
          rw [h] at hm
          exact hm
      · next st' h =>
          have hm := run_branch_log_meta cfg values b st
          rw [h] at hm
          exact (ih _).trans hm

/-- C3 counterexample: in a run whose only enricher step raises, the
execution log is left with status `running` and empty `final_results` —
`_finalize_execution_log` (which would set status `completed` and fill
`final_results`) is never called on the error paths, refuting the claim
that the orchestrator "finalizes the execution log" before returning.
The third conjunct shows the step error did occur. -/
theorem orchestrator_error_no_finalize_cex :
    (async_scan cex_orch_cfg [cex_fail_branch]
        (.list [.str "seed"])).2.log.status = "running" ∧
      (async_scan cex_orch_cfg [cex_fail_branch]
        (.list [.str "seed"])).2.log.final_results = none ∧
      (async_scan cex_orch_cfg [cex_fail_branch]
        (.list [.str "seed"])).2.log.entries.map LogEntry.status = ["error"] :=
  ⟨rfl, rfl, rfl⟩

/-- C3 (amended): when a step's `execute` raises — a validation failure or
any other exception — the orchestrator records the error on the step
(error log entry, error record under the step's node id in `results`),
writes the log entry, and returns immediately: the step loop's result no
longer depends on the remaining steps, an aborted branch short-circuits
all remaining branches, and the run ends with the execution log *not*
finalized (status still `running`, `final_results` still empty). -/
theorem orchestrator_abort_on_step_error :
    (∀ (cfg : OrchConfig) (bid bname : String) (step : FlowStep) rest st cur
        acc (enr : EnricherB) (m : String),
        (step.type == "type") = false →
        (cfg.enrichers.find? (fun kv => kv.1 == step.nodeId)).map (·.2) = some enr →
        py_truthy cur = true →
        (st.cache.find? (fun kv =>
          kv.1 == mk_cache_key cfg step.nodeId cur)).map (·.2) = none →
        enr.execute cur = .validation_error m →
        run_steps cfg bid bname (step :: rest) st cur acc =
          ({ st with
              trace := st.trace ++ [(step.nodeId, cur)]
              results := dict_set st.results step.nodeId
                (.obj [("error", .str ("Validation error: " ++ m))])
              log := update_execution_log st.log
                { base_log_entry bid bname step.nodeId enr.name cur with
                  status := "error"
                  error := some ("Validation error: " ++ m) } },
            acc, true)) ∧
    (∀ (cfg : OrchConfig) (bid bname : String) (step : FlowStep) rest st cur
        acc (enr : EnricherB) (m : String),
        (step.type == "type") = false →
        (cfg.enrichers.find? (fun kv => kv.1 == step.nodeId)).map (·.2) = some enr →
        py_truthy cur = true →
        (st.cache.find? (fun kv =>
          kv.1 == mk_cache_key cfg step.nodeId cur)).map (·.2) = none →
        enr.execute cur = .exn m →
        run_steps cfg bid bname (step :: rest) st cur acc =
          ({ st with
              trace := st.trace ++ [(step.nodeId, cur)]
              results := dict_set st.results step.nodeId
                (.obj [("error", .str ("Error during scan: " ++ m))])
              log := update_execution_log st.log
                { base_log_entry bid bname step.nodeId enr.name cur with
                  status := "error"
                  error := some ("Error during scan: " ++ m) } },
            acc, true)) ∧
    (∀ (cfg : OrchConfig) (values : Value) (b : FlowBranch) rest st st',
        run_branch cfg values b st = (st', true) →
        run_branches cfg values (b :: rest) st = (st', true)) ∧
    (∀ (cfg : OrchConfig) (branches : List FlowBranch) (values : Value),
        (run_branches cfg values branches (initial_scan_state branches)).2 = true →
        (async_scan cfg branches values).2.log.status = "running" ∧
          (async_scan cfg branches values).2.log.final_results = none) := by
  refine ⟨?_, ?_, ?_, ?_⟩
  · intro cfg bid bname step rest st cur acc enr m h1 h2 h3 h4 h5
    rw [run_steps]
    simp only [h1, Bool.false_eq_true, if_false, h2, h3, Bool.true_eq_false,
      h4, h5]
  · intro cfg bid bname step rest st cur acc enr m h1 h2 h3 h4 h5
    rw [run_steps]
    simp only [h1, Bool.false_eq_true, if_false, h2, h3, Bool.true_eq_false,
      h4, h5]
  · intro cfg values b rest st st' h
    rw [run_branches, h]
  · intro cfg branches values habort
    have hm := run_branches_log_meta cfg values branches (initial_scan_state branches)
    unfold async_scan
    cases hr : run_branches cfg values branches (initial_scan_state branches) with
    | mk st flag =>
        rw [hr] at hm habort
        simp only at habort
        subst habort
        exact ⟨congrArg Prod.fst hm, congrArg Prod.snd hm⟩

theorem orchestrator_abort_on_step_error_witness :
    (run_steps cex_orch_cfg "b" "n" [cex_fail_step] (initial_scan_state [])
        (.list [.str "seed"]) []).2.2 = true ∧
      run_branches cex_orch_cfg (.list [.str "seed"])
          [cex_fail_branch, cex_fail_branch] (initial_scan_state []) =
        ((run_branch cex_orch_cfg (.list [.str "seed"]) cex_fail_branch
          (initial_scan_state [])).1, true) ∧
      (async_scan cex_orch_cfg [cex_fail_branch]
        (.list [.str "seed"])).2.log.final_results = none := by
  refine ⟨?_, ?_, ?_⟩
  · rw [orchestrator_abort_on_step_error.2.1 cex_orch_cfg "b" "n"
      cex_fail_step [] (initial_scan_state []) (.list [.str "seed"]) []
      cex_fail_enricher "network down" rfl rfl rfl rfl rfl]
  · exact orchestrator_abort_on_step_error.2.2.1 cex_orch_cfg
      (.list [.str "seed"]) cex_fail_branch [cex_fail_branch]
      (initial_scan_state []) _ rfl
  · exact (orchestrator_abort_on_step_error.2.2.2 cex_orch_cfg
      [cex_fail_branch] (.list [.str "seed"]) rfl).2

/-- C4: the per-step cache. The run starts with an empty cache
(`initial_scan_state`); a step executing with a `(nodeId, inputs)` pair
whose key is already cached reuses the stored outputs without invoking the
enricher (the invocation trace is unchanged) and logs `cache_hit = true`;
on a miss the enricher's `execute` is invoked exactly once (one trace
entry), its outputs stored under the key, and `cache_hit = false` logged. -/
theorem orchestrator_cache_spec :
    (∀ branches : List FlowBranch, (initial_scan_state branches).cache = []) ∧
    (∀ (cfg : OrchConfig) (bid bname : String) (step : FlowStep) rest st cur
        acc (enr : EnricherB) (outs : Value) m',
        (step.type == "type") = false →
        (cfg.enrichers.find? (fun kv => kv.1 == step.nodeId)).map (·.2) = some enr →
        py_truthy cur = true →
        (st.cache.find? (fun kv =>
          kv.1 == mk_cache_key cfg step.nodeId cur)).map (·.2) = some outs →
        update_results_mapping outs step.outputs st.results_mapping = .ok m' →
        run_steps cfg bid bname (step :: rest) st cur acc =
          run_steps cfg bid bname rest
            { st with
              results_mapping := m'
              results := dict_set st.results step.nodeId outs
              log := update_execution_log st.log
                { base_log_entry bid bname step.nodeId enr.name cur with
                  outputs := some outs
                  status := "completed"
                  cache_hit := some true } }
            outs
            (acc ++ [{ nodeId := step.nodeId, enricher := enr.name,
                       status := "completed", outputs := some outs,
                       error := none }])) ∧
    (∀ (cfg : OrchConfig) (bid bname : String) (step : FlowStep) rest st cur
        acc (enr : EnricherB) (v : Value) m',
        (step.type == "type") = false →
        (cfg.enrichers.find? (fun kv => kv.1 == step.nodeId)).map (·.2) = some enr →
        py_truthy cur = true →
        (st.cache.find? (fun kv =>
          kv.1 == mk_cache_key cfg step.nodeId cur)).map (·.2) = none →
        enr.execute cur = .ok v →
        is_dict_or_list v = true →
        update_results_mapping v step.outputs st.results_mapping = .ok m' →
        run_steps cfg bid bname (step :: rest) st cur acc =
          run_steps cfg bid bname rest
            { st with
              trace := st.trace ++ [(step.nodeId, cur)]
              cache := st.cache ++ [(mk_cache_key cfg step.nodeId cur, v)]
              results_mapping := m'
              results := dict_set st.results step.nodeId v
              log := update_execution_log st.log
                { base_log_entry bid bname step.nodeId enr.name cur with
                  outputs := some v
                  status := "completed"
                  cache_hit := some false } }
            v
            (acc ++ [{ nodeId := step.nodeId, enricher := enr.name,
                       status := "completed", outputs := some v,
                       error := none }])) := by
  refine ⟨fun _ => rfl, ?_, ?_⟩
  · intro cfg bid bname step rest st cur acc enr outs m' h1 h2 h3 h4 h5
    rw [run_steps]
    simp only [h1, Bool.false_eq_true, if_false, h2, h3, Bool.true_eq_false,
      h4, h5]
  · intro cfg bid bname step rest st cur acc enr v m' h1 h2 h3 h4 h5 h6 h7
    rw [run_steps]
    simp only [h1, Bool.false_eq_true, if_false, h2, h3, Bool.true_eq_false,
      h4, h5, h6, if_true, eq_self_iff_true, h7]

/-- An enricher whose `execute` returns an (empty) dict. -/
def cex_ok_enricher : EnricherB :=
  { name := "calm", key := "k", execute := fun _ => .ok (.obj []) }

/-- Configuration loading the succeeding enricher under node `calm-1`. -/
def cex_ok_cfg : OrchConfig :=
  { enrichers := [("calm-1", cex_ok_enricher)], py_str := py_str_stub }

/-- A branch step bound to the succeeding enricher. -/
def cex_ok_step : FlowStep :=
  { nodeId := "calm-1", params := [], inputs := [], outputs := [],
    type := "enricher", status := "pending", branchId := "branch-0", depth := 1 }

theorem orchestrator_cache_spec_witness :
    ((run_steps cex_ok_cfg "b" "n" [cex_ok_step]
        { initial_scan_state [] with
          cache := [(mk_cache_key cex_ok_cfg "calm-1" (.list [.str "x"]),
            .obj [("cached", .int 1)])] }
        (.list [.str "x"]) []).1.trace = [] ∧
      (run_steps cex_ok_cfg "b" "n" [cex_ok_step]
        { initial_scan_state [] with
          cache := [(mk_cache_key cex_ok_cfg "calm-1" (.list [.str "x"]),
            .obj [("cached", .int 1)])] }
        (.list [.str "x"]) []).1.log.entries.map LogEntry.cache_hit =
          [some true]) ∧
    ((run_steps cex_ok_cfg "b" "n" [cex_ok_step] (initial_scan_state [])
        (.list [.str "x"]) []).1.trace = [("calm-1", .list [.str "x"])] ∧
      (run_steps cex_ok_cfg "b" "n" [cex_ok_step] (initial_scan_state [])
        (.list [.str "x"]) []).1.log.entries.map LogEntry.cache_hit =
          [some false] ∧
      (run_steps cex_ok_cfg "b" "n" [cex_ok_step] (initial_scan_state [])
        (.list [.str "x"]) []).1.cache =
          [(mk_cache_key cex_ok_cfg "calm-1" (.list [.str "x"]), .obj [])]) := by
  constructor
  · rw [orchestrator_cache_spec.2.1 cex_ok_cfg "b" "n" cex_ok_step []
      { initial_scan_state [] with
        cache := [(mk_cache_key cex_ok_cfg "calm-1" (.list [.str "x"]),
          .obj [("cached", .int 1)])] }
      (.list [.str "x"]) [] cex_ok_enricher (.obj [("cached", .int 1)])
      [] rfl rfl rfl rfl rfl]
    exact ⟨rfl, rfl⟩
  · rw [orchestrator_cache_spec.2.2 cex_ok_cfg "b" "n" cex_ok_step []
      (initial_scan_state []) (.list [.str "x"]) [] cex_ok_enricher
      (.obj []) [] rfl rfl rfl rfl rfl rfl rfl]
    exact ⟨rfl, rfl, rfl⟩

/-- The inputs actually fed to the steps of one branch form a chain: the
first logged step receives the given value, and each later one receives
the previous entry's outputs when that entry completed (cache hits
included) and the unchanged value otherwise. -/
def chained_from (v : Value) : List LogEntry → Prop
  | [] => True
  | e :: rest =>
      e.inputs = v ∧
      chained_from (if e.status == "completed" then e.outputs.getD .null else v) rest

/-- The step loop never reads a step's declared `inputs` record: replacing
it with anything leaves the run unchanged. -/
theorem run_steps_ignores_declared_inputs (cfg : OrchConfig)
    (bid bname : String) (step : FlowStep)
    (declared : List (String × Value)) (rest : List FlowStep) (st : ScanState)
    (cur : Value) (acc : List StepResult) :
    run_steps cfg bid bname ({ step with inputs := declared } :: rest) st cur acc =
      run_steps cfg bid bname (step :: rest) st cur acc := by
  obtain ⟨n, p, i, o, t, u, b, d⟩ := step
  rfl

/-- Helper for `run_steps_entries_chain`: one recursion leaf that logged
entry `E` and continued with inputs `cur'`. -/
theorem chain_step (cfg : OrchConfig) (bid bname : String)
    (rest : List FlowStep) (st st' : ScanState) (E : LogEntry)
    (cur cur' : Value) (acc' : List StepResult)
    (ih : ∃ new, (run_steps cfg bid bname rest st' cur' acc').1.log.entries =
      st'.log.entries ++ new ∧ chained_from cur' new)
    (hent : st'.log.entries = st.log.entries ++ [E])
    (hinp : E.inputs = cur)
    (hcur : (if E.status == "completed" then E.outputs.getD .null else cur) = cur') :
    ∃ new, (run_steps cfg bid bname rest st' cur' acc').1.log.entries =
      st.log.entries ++ new ∧ chained_from cur new := by
  obtain ⟨new', e1, e2⟩ := ih
  refine ⟨E :: new', ?_, hinp, ?_⟩
  · rw [e1, hent, List.append_assoc, List.singleton_append]
  · rw [hcur]
    exact e2

/-- The log entries appended by the step loop chain from the current
inputs value. -/
theorem run_steps_entries_chain (cfg : OrchConfig) (bid bname : String) :
    ∀ steps st cur acc, ∃ new,
      (run_steps cfg bid bname steps st cur acc).1.log.entries =
        st.log.entries ++ new ∧ chained_from cur new := by
  intro steps
  induction steps with
  | nil => intro st cur acc; exact ⟨[], by simp [run_steps], trivial⟩
  | cons s rest ih =>
      intro st cur acc
      rw [run_steps]
      by_cases h1 : (s.type == "type") = true
      · simp only [h1, if_true]
        exact ih st cur acc
      · rw [Bool.not_eq_true] at h1
        simp only [h1, Bool.false_eq_true, if_false]
        cases h2 : (cfg.enrichers.find? (fun kv => kv.1 == s.nodeId)).map (·.2) with
        | none => exact ih st cur acc
        | some enr =>
            simp only
            by_cases h3 : py_truthy cur = false
            · rw [if_pos h3]
              exact chain_step _ _ _ _ _ _ _ _ _ _ (ih _ _ _) rfl rfl rfl
            · rw [if_neg h3]
              cases h4 : (st.cache.find? (fun kv =>
                  kv.1 == mk_cache_key cfg s.nodeId cur)).map (·.2) with
              | some outs =>
                  simp only
                  cases h5 : update_results_mapping outs s.outputs st.results_mapping with
                  | ok m' =>
                      exact chain_step _ _ _ _ _ _ _ _ _ _ (ih _ _ _) rfl rfl rfl
                  | error m =>
                      exact ⟨_, rfl, rfl, trivial⟩
              | none =>
                  cases h5 : enr.execute cur with
                  | ok v =>
                      by_cases h6 : is_dict_or_list v = true
                      · simp only [h6, if_true]
                        cases h7 : update_results_mapping v s.outputs st.results_mapping with
                        | ok m' =>
                            exact chain_step _ _ _ _ _ _ _ _ _ _ (ih _ _ _) rfl rfl rfl
                        | error m =>
                            exact ⟨_, rfl, rfl, trivial⟩
                      · rw [Bool.not_eq_true] at h6
                        simp only [h6, Bool.false_eq_true, if_false]
                        exact ⟨_, rfl, rfl, trivial⟩
                  | validation_error m =>
                      exact ⟨_, rfl, rfl, trivial⟩
                  | exn m =>
                      exact ⟨_, rfl, rfl, trivial⟩

/-- `prepare_enricher_inputs` from the orchestrator, embedded for
reference: the resolution walk over the step's declared `inputs`.  Note
the source's final `return inputs[input_key]` returns only the value of
the *last* iterated key (raising `KeyError` when that key was dropped or
`UnboundLocalError` when the loop never ran); the fallback when nothing
resolved binds the enricher's primary key to the initial values.  This
method is never called by `_async_scan`. -/
def prepare_enricher_inputs (enrichers : List (String × EnricherB))
    (step : FlowStep) (results_mapping : List (Value × Value))
    (initial_values : Value) : Except String Value :=
  let walk := step.inputs.foldl
    (fun (p : List (String × Value) × Option String) kv =>
      match kv.2 with
      | .str ref =>
          (match resolve_reference ref results_mapping with
           | some v => dict_set p.1 kv.1 v
           | none => p.1,
            some kv.1)
      | .list items =>
          (dict_set p.1 kv.1 (.list (items.map (fun item =>
              match item with
              | .str s => (vdict_get results_mapping (.str s)).getD (.str s)
              | _ => item))),
            some kv.1)
      | other => (dict_set p.1 kv.1 other, some kv.1))
    ([], none)
  if walk.1.isEmpty then
    match (enrichers.find? (fun kv => kv.1 == step.nodeId)).map (·.2) with
    | some e => .ok (.obj [(e.key, initial_values)])
    | none =>
        match walk.2 with
        | none => .error "UnboundLocalError: input_key"
        | some _ => .error "KeyError"
  else
    match walk.2 with
    | some k =>
        match dict_get walk.1 k with
        | some v => .ok v
        | none => .error "KeyError"
    | none => .error "UnboundLocalError: input_key"

/-- Modelled from the spec: the per-step input record C1 claims the run
feeds to each enricher — the step's declared `inputs` resolved against the
results mapping (string values as references, dropped when unresolved;
lists element-wise; other values kept), falling back, when nothing
resolved, to the seed values bound to the enricher's primary key for the
first step of the branch and to the previous step's raw outputs
otherwise. -/
def spec_resolved_inputs (step : FlowStep)
    (results_mapping : List (Value × Value)) (seed_values : Value)
    (primary_key : String) (first_step : Bool) (prev_outputs : Value) :
    Value :=
  let resolved := step.inputs.foldl
    (fun inputs kv =>
      match kv.2 with
      | .str ref =>
          (match vdict_get results_mapping (.str ref) with
           | some v => dict_set inputs kv.1 v
           | none => inputs)
      | .list items =>
          dict_set inputs kv.1 (.list (items.map (fun item =>
            match item with
            | .str s => (vdict_get results_mapping (.str s)).getD (.str s)
            | _ => item)))
      | other => dict_set inputs kv.1 other)
    []
  if resolved.isEmpty then
    if first_step then .obj [(primary_key, seed_values)] else prev_outputs
  else .obj resolved

/-- An enricher recording nothing, used for the C1 counterexample. -/
def cex_res_enricher : EnricherB :=
  { name := "e", key := "k", execute := fun _ => .ok (.obj []) }

/-- Configuration for the C1 counterexample. -/
def cex_res_cfg : OrchConfig :=
  { enrichers := [("e-1", cex_res_enricher)], py_str := py_str_stub }

/-- A step declaring a non-empty literal `inputs` record. -/
def cex_res_step : FlowStep :=
  { nodeId := "e-1", params := [], inputs := [("k", .int 5)], outputs := [],
    type := "enricher", status := "pending", branchId := "branch-0", depth := 1 }

/-- The single-branch flow for the C1 counterexample. -/
def cex_res_branch : FlowBranch := ⟨"branch-0", "Main Flow", [cex_res_step]⟩

/-- C1 counterexample: the step declares `inputs = {"k": 5}`, whose claimed
resolution is the non-empty record `{"k": 5}`; but the run's only
invocation of the enricher receives the raw seed list instead — the
declared record and the claimed walk are not what `_async_scan` passes. -/
theorem orchestrator_input_resolution_cex :
    (async_scan cex_res_cfg [cex_res_branch] (.list [.str "seed"])).2.trace =
        [("e-1", .list [.str "seed"])] ∧
      spec_resolved_inputs cex_res_step [] (.list [.str "seed"]) "k" true
          .null = .obj [("k", .int 5)] ∧
      Value.list [.str "seed"] ≠ Value.obj [("k", .int 5)] :=
  ⟨rfl, rfl, fun h => Value.noConfusion h⟩

/-- C1 (amended): the inputs passed to each executed step are not obtained
from the step's declared `inputs` record at all (replacing that record
changes nothing); instead the branch's logged steps chain from the run's
raw seed values: the first logged step receives them unchanged (not bound
to the enricher's key field), and each later one receives the raw outputs
of the most recent successfully completed step. -/
theorem orchestrator_input_threading :
    (∀ (cfg : OrchConfig) (bid bname : String) (step : FlowStep)
        (declared : List (String × Value)) rest st cur acc,
        run_steps cfg bid bname ({ step with inputs := declared } :: rest)
            st cur acc =
          run_steps cfg bid bname (step :: rest) st cur acc) ∧
    (∀ (cfg : OrchConfig) (values : Value) (b : FlowBranch) (st : ScanState),
        ∃ new, (run_branch cfg values b st).1.log.entries =
          st.log.entries ++ new ∧ chained_from values new) := by
  constructor
  · intro cfg bid bname step declared rest st cur acc
    exact run_steps_ignores_declared_inputs cfg bid bname step declared rest
      st cur acc
  · intro cfg values b st
    obtain ⟨new, e1, e2⟩ := run_steps_entries_chain cfg b.id b.name b.steps
      st values []
    refine ⟨new, ?_, e2⟩
    unfold run_branch
    split
    · next st' _ h => rw [h] at e1; exact e1
    · next st' acc h => rw [h] at e1; exact e1

/-! ## `_load_enrichers` (orchestrator construction) and the registry -/

/-- `node_id.split("-")[0]`: the characters before the first `'-'`. -/
def enricher_name_of (node_id : String) : String :=
  String.mk (node_id.toList.takeWhile (fun c => c != '-'))

/-- `EnricherRegistry.enricher_exists` (`registry.py`): key membership in
the registry dict, modelled by its list of registered names. -/
def enricher_exists (registry : List String) (name : String) : Bool :=
  registry.contains name

/-- The enricher steps collected by `_load_enrichers`: every step of every
branch whose type is not `"type"`. -/
def enricher_steps (branches : List FlowBranch) : List FlowStep :=
  ((branches.map FlowBranch.steps).flatten).filter (fun s => s.type != "type")

/-- The per-node loop of `_load_enrichers`: derive each step's registry
name, raise at the first name missing from the registry, otherwise map the
node id to the name (the Python dict keeps one instance per node id; the
association list keeps the same name for duplicates). -/
def load_enrichers_loop (registry : List String) :
    List FlowStep → Except String (List (String × String))
  | [] => .ok []
  | node :: rest =>
      let name := enricher_name_of node.nodeId
      if enricher_exists registry name then
        match load_enrichers_loop registry rest with
        | .ok acc => .ok ((node.nodeId, name) :: acc)
        | .error m => .error m
      else .error ("Enricher '" ++ name ++ "' not found in registry")

/-- `_load_enrichers` from the orchestrator, run by `__init__` before any
step can execute: reject an empty branch list, reject a flow with no
enricher step, then resolve every enricher node against the registry. -/
def load_enrichers (branches : List FlowBranch) (registry : List String) :
    Except String (List (String × String)) :=
  if branches.isEmpty then .error "No enricher branches provided"
  else if (enricher_steps branches).isEmpty then
    .error "No enricher nodes found in enricher branches"
  else load_enrichers_loop registry (enricher_steps branches)

theorem load_enrichers_loop_error_iff (registry : List String) :
    ∀ l : List FlowStep,
      (∃ m, load_enrichers_loop registry l = .error m) ↔
        ∃ s ∈ l, enricher_exists registry (enricher_name_of s.nodeId) = false := by
  intro l
  induction l with
  | nil => simp [load_enrichers_loop]
  | cons s rest ih =>
      rw [load_enrichers_loop]
      by_cases hc : enricher_exists registry (enricher_name_of s.nodeId) = true
      · simp only [hc, if_true]
        cases hrest : load_enrichers_loop registry rest with
        | ok acc =>
            simp only [hrest]
            constructor
            · rintro ⟨m, hm⟩
              cases hm
            · rintro ⟨s', hs', hfalse⟩
              rcases List.mem_cons.1 hs' with heq | hmem
              · rw [heq] at hfalse
                rw [hc] at hfalse
                cases hfalse
              · obtain ⟨m, hm⟩ := ih.2 ⟨s', hmem, hfalse⟩
                rw [hrest] at hm
                cases hm
        | error m =>
            simp only [hrest]
            constructor
            · intro _
              obtain ⟨s', hmem, hfalse⟩ := ih.1 ⟨m, hrest⟩
              exact ⟨s', List.mem_cons_of_mem _ hmem, hfalse⟩
            · intro _
              exact ⟨m, rfl⟩
      · rw [Bool.not_eq_true] at hc
        simp only [hc, Bool.false_eq_true, if_false]
        constructor
        · intro _
          exact ⟨s, List.mem_cons_self _ _, hc⟩
        · intro _
          exact ⟨_, rfl⟩

theorem takeWhile_no_dash_append (l₁ l₂ : List Char)
    (h : ∀ c ∈ l₁, (c != '-') = true) :
    (l₁ ++ '-' :: l₂).takeWhile (fun c => c != '-') = l₁ := by
  induction l₁ with
  | nil => simp [List.takeWhile_cons]
  | cons c cs ih =>
      have hc := h c (List.mem_cons_self _ _)
      simp only [List.cons_append, List.takeWhile_cons, hc, if_true]
      rw [ih (fun x hx => h x (List.mem_cons_of_mem _ hx))]

theorem takeWhile_no_dash (l : List Char) (h : ∀ c ∈ l, (c != '-') = true) :
    l.takeWhile (fun c => c != '-') = l := by
  induction l with
  | nil => rfl
  | cons c cs ih =>
      have hc := h c (List.mem_cons_self _ _)
      simp only [List.takeWhile_cons, hc, if_true]
      rw [ih (fun x hx => h x (List.mem_cons_of_mem _ hx))]

/-- C10: orchestrator construction derives each enricher's registry name
as the substring of the step's `nodeId` before the first `'-'` (second
conjunct), and `_load_enrichers` — run by `__init__` before any step can
execute — raises exactly when the branch list is empty, no step has a type
other than `"type"`, or some derived name is missing from the registry
(first conjunct); registry membership is name membership (third
conjunct). -/
theorem load_enrichers_spec :
    (∀ (branches : List FlowBranch) (registry : List String),
        (∃ m, load_enrichers branches registry = .error m) ↔
          (branches = [] ∨ enricher_steps branches = [] ∨
            ∃ s ∈ enricher_steps branches,
              enricher_exists registry (enricher_name_of s.nodeId) = false)) ∧
    (∀ pre post : String, (∀ c ∈ pre.toList, c ≠ '-') →
        enricher_name_of (pre ++ "-" ++ post) = pre ∧
          enricher_name_of pre = pre) ∧
    (∀ (registry : List String) (name : String),
        enricher_exists registry name = true ↔ name ∈ registry) := by
  refine ⟨?_, ?_, ?_⟩
  · intro branches registry
    unfold load_enrichers
    by_cases hb : branches.isEmpty
    · simp only [hb, if_true]
      constructor
      · intro _
        exact Or.inl (List.isEmpty_iff.1 hb)
      · intro _
        exact ⟨_, rfl⟩
    · simp only [hb, Bool.false_eq_true, if_false]
      by_cases he : (enricher_steps branches).isEmpty
      · simp only [he, if_true]
        constructor
        · intro _
          exact Or.inr (Or.inl (List.isEmpty_iff.1 he))
        · intro _
          exact ⟨_, rfl⟩
      · simp only [he, Bool.false_eq_true, if_false]
        rw [load_enrichers_loop_error_iff]
        constructor
        · intro h
          exact Or.inr (Or.inr h)
        · rintro (h | h | h)
          · exact absurd (List.isEmpty_iff.2 h) (by simpa using hb)
          · exact absurd (List.isEmpty_iff.2 h) (by simpa using he)
          · exact h
  · intro pre post h
    have hb : ∀ c ∈ pre.toList, (c != '-') = true := by
      intro c hc
      simpa using h c hc
    constructor
    · show String.mk ((pre ++ "-" ++ post).toList.takeWhile (fun c => c != '-')) = pre
      have hdata : (pre ++ "-" ++ post).toList = pre.toList ++ '-' :: post.toList := by
        show (pre ++ "-" ++ post).data = pre.data ++ '-' :: post.data
        rw [String.data_append, String.data_append]
        simp
      rw [hdata, takeWhile_no_dash_append _ _ hb]
      cases pre
      rfl
    · show String.mk (pre.toList.takeWhile (fun c => c != '-')) = pre
      rw [takeWhile_no_dash _ hb]
      cases pre
      rfl
  · intro registry name
    show List.elem name registry = true ↔ name ∈ registry
    exact List.elem_iff

theorem load_enrichers_spec_witness :
    (∃ m, load_enrichers [cex_fail_branch] ["whois"] = .error m) ∧
      enricher_name_of ("whois" ++ "-" ++ "123") = "whois" ∧
      (enricher_exists ["whois"] "whois" = true) := by
  refine ⟨?_, ?_, ?_⟩
  · refine (load_enrichers_spec.1 [cex_fail_branch] ["whois"]).2
      (Or.inr (Or.inr ⟨cex_fail_step, ?_, rfl⟩))
    have h : enricher_steps [cex_fail_branch] = [cex_fail_step] := rfl
    rw [h]
    exact List.mem_singleton.2 rfl
  · exact (load_enrichers_spec.2.1 "whois" "123" (by decide)).1
  · exact (load_enrichers_spec.2.2 ["whois"] "whois").2
      (List.mem_singleton.2 rfl)

/-! ## Task runtime (`run_enricher`, `tasks/enricher.py`)

The Celery/SQLAlchemy machinery is external; the task body's control flow
is embedded with its external effects abstracted: whether building the
vault raises (that exception is caught and only logged), whether the
enricher name is registered, whether `get_enricher` raises during
construction, and the outcome of `asyncio.run(enricher.execute(...))`.
The `Scan` row shape (`status`, `results`) follows §3 of the spec, the
model `flowsint_core.core.models.Scan` not being under `src/`. -/

/-- A persisted `Scan` row. -/
structure ScanRow where
  status : String
  results : Option Value

/-- The row created at the top of the task. -/
def pending_scan_row : ScanRow := { status := "pending", results := none }

/-- Outcome of a Python call that either returns or raises. -/
inductive WorkOutcome where
  | ok (v : Value) : WorkOutcome
  | raise (msg : String) : WorkOutcome

/-- What one `run_enricher` job did: the successive states of its `Scan`
row, whether the final exception was re-raised to the queue, and the
task's return value. -/
structure TaskResult where
  rows : List ScanRow
  reraised : Bool
  retval : Option Value

/-- `run_enricher` from `tasks/enricher.py`: create the `Scan` row with
status `pending`; try to build the vault (a failure there is caught and
ignored), check the registry, build the enricher, run `execute`; on
success commit status `completed` with the serialized outputs, on any
exception commit status `failed` with an error map and re-raise. -/
def run_enricher (enricher_name : String) (registry : List String)
    (vault_fails : Bool) (construct_error : Option String)
    (exec_outcome : WorkOutcome) : TaskResult :=
  let _ := vault_fails
  let work : WorkOutcome :=
    if enricher_exists registry enricher_name = false then
      .raise ("Enricher '" ++ enricher_name ++ "' not found in registry")
    else
      match construct_error with
      | some m => .raise m
      | none => exec_outcome
  match work with
  | .ok v =>
      { rows := [pending_scan_row, { status := "completed", results := some v }]
        reraised := false
        retval := some (.obj [("result", v)]) }
  | .raise m =>
      { rows := [pending_scan_row,
          { status := "failed",
            results := some (.obj [("error",
              .str ("An error occurred: " ++ m))]) }]
        reraised := true
        retval := none }

/-- C8: every `run_enricher` job first creates its `Scan` row with status
`pending`; when `execute` completes (name registered, construction fine)
the row ends `completed` with the serialized outputs; when anything raises
after the row exists the row ends `failed` with a map carrying the error
message and the exception is re-raised to the queue; a vault-creation
failure alone changes nothing. -/
theorem run_enricher_spec :
    (∀ (name : String) (registry : List String) (vault_fails : Bool)
        (cerr : Option String) (eo : WorkOutcome),
        (run_enricher name registry vault_fails cerr eo).rows.head? =
          some pending_scan_row) ∧
    (∀ (name : String) (registry : List String) (vault_fails : Bool)
        (v : Value),
        enricher_exists registry name = true →
        (run_enricher name registry vault_fails none (.ok v)).rows.getLast? =
            some { status := "completed", results := some v } ∧
          (run_enricher name registry vault_fails none (.ok v)).reraised =
            false) ∧
    (∀ (name : String) (registry : List String) (vault_fails : Bool)
        (m : String),
        enricher_exists registry name = true →
        (run_enricher name registry vault_fails none (.raise m)).rows.getLast? =
            some { status := "failed"
                   results := some (.obj [("error",
                     .str ("An error occurred: " ++ m))]) } ∧
          (run_enricher name registry vault_fails none (.raise m)).reraised =
            true) ∧
    (∀ (name : String) (registry : List String) (vault_fails : Bool)
        (cerr : Option String) (eo : WorkOutcome),
        enricher_exists registry name = false →
        (run_enricher name registry vault_fails cerr eo).rows.getLast? =
            some { status := "failed"
                   results := some (.obj [("error",
                     .str ("An error occurred: Enricher '" ++ name ++
                       "' not found in registry"))]) } ∧
          (run_enricher name registry vault_fails cerr eo).reraised = true) ∧
    (∀ (name : String) (registry : List String) (cerr : Option String)
        (eo : WorkOutcome),
        run_enricher name registry true cerr eo =
          run_enricher name registry false cerr eo) := by
  refine ⟨?_, ?_, ?_, ?_, ?_⟩
  · intro name registry vault_fails cerr eo
    unfold run_enricher
    cases h : (if enricher_exists registry name = false then
        WorkOutcome.raise ("Enricher '" ++ name ++ "' not found in registry")
      else match cerr with | some m => .raise m | none => eo) <;> rfl
  · intro name registry vault_fails v hreg
    unfold run_enricher
    simp [hreg]
  · intro name registry vault_fails m hreg
    unfold run_enricher
    simp [hreg]
  · intro name registry vault_fails cerr eo hreg
    unfold run_enricher
    simp [hreg]
    rw [← String.append_assoc, ← String.append_assoc]
    rfl
  · intro name registry cerr eo
    rfl

theorem run_enricher_spec_witness :
    ((run_enricher "whois" ["whois"] false none
        (.ok (.obj []))).rows.getLast? =
      some { status := "completed", results := some (.obj []) }) ∧
    ((run_enricher "whois" ["whois"] false none
        (.raise "boom")).reraised = true) ∧
    ((run_enricher "ghost" ["whois"] false none
        (.ok (.obj []))).reraised = true) := by
  refine ⟨?_, ?_, ?_⟩
  · exact (run_enricher_spec.2.1 "whois" ["whois"] false (.obj []) rfl).1
  · exact (run_enricher_spec.2.2.1 "whois" ["whois"] false "boom" rfl).2
  · exact (run_enricher_spec.2.2.2.1 "ghost" ["whois"] false none
      (.ok (.obj [])) rfl).2
